import Mathlib

/-!
# Fixed-size block memory pool (`mempool.c`)

Shallow embedding of `MemPoolCreate`, `MemPoolCreateStatic`, `MemPoolDelete`,
`MemPoolAlloc`, `MemPoolFree`, `MemPoolFreePtr` and `MemPoolAvailable`.

* Addresses and `size_t` values are natural numbers, reduced modulo
  `2 ^ ptrBits` wherever the C arithmetic is done in `size_t` or in
  `portPOINTER_SIZE_TYPE`; `0` is `NULL`.
* The memory is split in two maps: the `next` word of the `struct MemItem`
  at each address, and the `struct MemPool` at each address. A descriptor
  and a link word are separate cells of this memory even at one address,
  and every write succeeds; `Layout.Apart` says of a pool that its
  descriptor is outside its slots, so that the two are separate in the
  memory of the code as well.
* `configASSERT` failing calls `vAssertCalled`, which never returns: the
  operations that can assert return an `Option`, and `none` is the fatal stop.
* The build switches `MEMPOOL_PREMAP` and `MEMPOOL_FREEPTR` are the fields of
  `Config`; the constants of the FreeRTOS port (not part of the repository)
  are the fields of `Platform`.
-/

namespace Mempool

/-! ## Build configuration and platform -/

/-- Build switches of `mempool.c` (lines 33-43). -/
structure Config where
  /-- The switch `MEMPOOL_PREMAP`. -/
  premap : Bool
  /-- The switch `MEMPOOL_FREEPTR`. -/
  freeptr : Bool

/-- Constants that come from the compiler and the FreeRTOS port headers. -/
structure Platform where
  /-- Width in bits of `size_t`, of pointers and of `portPOINTER_SIZE_TYPE`. -/
  ptrBits : Nat
  /-- Width in bits of `int`. -/
  intBits : Nat
  /-- The constant `portBYTE_ALIGNMENT`. -/
  portBYTE_ALIGNMENT : Nat
  /-- The constant `portBYTE_ALIGNMENT_MASK`. -/
  portBYTE_ALIGNMENT_MASK : Nat
  /-- The value of `sizeof(struct MemPool)`. -/
  sizeofMemPool : Nat
  /-- The value of `sizeof(struct MemItem)`. -/
  sizeofMemItem : Nat
  /-- The value of `sizeof(StaticMemItem_t)`. -/
  sizeofStaticMemItem : Nat

/-- The number of values of `size_t`: arithmetic on sizes and addresses is modulo this. -/
def Platform.size (plat : Platform) : Nat := 2 ^ plat.ptrBits

/-- A port as FreeRTOS defines them: the alignment is a power of two that fits
in a pointer, and the mask is the alignment minus one. -/
def Platform.WF (plat : Platform) : Prop :=
  ∃ k, k < plat.ptrBits ∧ plat.portBYTE_ALIGNMENT = 2 ^ k ∧
    plat.portBYTE_ALIGNMENT_MASK = 2 ^ k - 1

/-- A 32-bit port: 32-bit pointers and `int`, 8-byte alignment. -/
def ilp32 : Platform :=
  { ptrBits := 32, intBits := 32, portBYTE_ALIGNMENT := 8, portBYTE_ALIGNMENT_MASK := 7,
    sizeofMemPool := 16, sizeofMemItem := 4, sizeofStaticMemItem := 4 }

/-- A 64-bit port: 64-bit pointers, 32-bit `int`, 8-byte alignment. -/
def lp64 : Platform :=
  { ptrBits := 64, intBits := 32, portBYTE_ALIGNMENT := 8, portBYTE_ALIGNMENT_MASK := 7,
    sizeofMemPool := 32, sizeofMemItem := 8, sizeofStaticMemItem := 8 }

/-- The default build: both switches are 1. -/
def defaultConfig : Config := { premap := true, freeptr := true }

/-- The macro `MEMPOOL_ALIGN(x)` (line 53):
`((portPOINTER_SIZE_TYPE)(x) + portBYTE_ALIGNMENT - 1) & ~(portPOINTER_SIZE_TYPE)portBYTE_ALIGNMENT_MASK`. -/
def MEMPOOL_ALIGN (plat : Platform) (x : Nat) : Nat :=
  ((x + plat.portBYTE_ALIGNMENT - 1) % plat.size) &&&
    (plat.size - 1 - plat.portBYTE_ALIGNMENT_MASK)

/-- The aligned item header `MEMPOOL_ALIGN(sizeof(struct MemItem))`. -/
def hdrSize (plat : Platform) : Nat := MEMPOOL_ALIGN plat plat.sizeofMemItem

/-- The item stride `isize` of both constructors (lines 99 and 139), a `size_t`. -/
def itemStride (plat : Platform) (ItemSize : Nat) : Nat :=
  (MEMPOOL_ALIGN plat plat.sizeofMemItem + MEMPOOL_ALIGN plat ItemSize) % plat.size

/-! ## Memory -/

/-- The private `struct MemPool` (lines 69-75). -/
structure MemPool where
  /-- Next free item. -/
  next : Nat
  /-- Item count. -/
  count : Nat
  /-- Item size. -/
  isize : Nat
  /-- Can be freed flag. -/
  allocated : Bool

/-- The memory the pool code reads and writes, as two maps. Link words and descriptors
are separate cells, also at equal addresses: the embedding follows the code on the runs
that do not write a word as one and read it as the other, as on every pool whose
descriptor is outside its slots. -/
structure Heap where
  /-- The field `next` of the `struct MemItem` at each address. -/
  item : Nat → Nat
  /-- The `struct MemPool` at each address. -/
  pool : Nat → MemPool

/-! ## Constructors -/

/-- The premap loop `for (; --ItemCount; item = next) { next = item + isize; next->next = item; }`
(lines 112-115 and 155-158), by the number of iterations left, which is `ItemCount - 1`
at the start. Returns the last value of `item` and the memory. -/
def premapLoop (plat : Platform) (isize : Nat) : Nat → Nat → (Nat → Nat) → Nat × (Nat → Nat)
  | 0, item, mem => (item, mem)
  | k + 1, item, mem =>
      let next := (item + isize) % plat.size
      premapLoop plat isize k next (Function.update mem next item)

/-- The free list set-up shared by both constructors: `item->next = NULL`, then the
premap loop when `MEMPOOL_PREMAP` is on. Returns the head of the list and the memory. -/
def linkItems (cfg : Config) (plat : Platform) (isize ItemCount item : Nat)
    (mem : Nat → Nat) : Nat × (Nat → Nat) :=
  if cfg.premap then premapLoop plat isize (ItemCount - 1) item (Function.update mem item 0)
  else (item, Function.update mem item 0)

/-- The function `MemPoolCreate` (lines 85-122). `pvPortMalloc` is the general allocator:
it maps the requested byte count to the address of the block, `0` when it fails. -/
def MemPoolCreate (cfg : Config) (plat : Platform) (pvPortMalloc : Nat → Nat)
    (ItemSize ItemCount : Nat) (h : Heap) : Nat × Heap :=
  if ItemSize = 0 ∨ ItemCount = 0 then (0, h)
  else
    let hsize := MEMPOOL_ALIGN plat plat.sizeofMemPool
    let isize := itemStride plat ItemSize
    let pool := pvPortMalloc ((hsize + ItemCount * isize) % plat.size)
    if pool = 0 then (0, h)
    else
      let item := (pool + hsize) % plat.size
      let r := linkItems cfg plat isize ItemCount item h.item
      (pool,
        { item := r.2
          pool := Function.update h.pool pool
            { next := r.1, count := ItemCount,
              isize := if cfg.premap then 0 else isize, allocated := true } })

/-- The bytes skipped to align a static buffer, `(uint8_t *)item - (uint8_t *)Buffer` with
`item = MEMPOOL_ALIGN(Buffer)` (lines 140-141). -/
def alignPadding (plat : Platform) (Buffer : Nat) : Nat :=
  (MEMPOOL_ALIGN plat Buffer + plat.size - Buffer) % plat.size

/-- The usable size of a static buffer (line 141): `BufferSize -= item - Buffer`,
a subtraction in `size_t`. -/
def usableSize (plat : Platform) (Buffer BufferSize : Nat) : Nat :=
  (BufferSize + plat.size - alignPadding plat Buffer) % plat.size

/-- The item count after lines 142-144: `if (ItemCount == 0) ItemCount = BufferSize / isize;`
with `BufferSize` already reduced to the usable size. -/
def staticCount (plat : Platform) (ItemSize ItemCount Buffer BufferSize : Nat) : Nat :=
  if ItemCount = 0 then usableSize plat Buffer BufferSize / itemStride plat ItemSize
  else ItemCount

/-- The function `MemPoolCreateStatic` (lines 124-165). `none` is a run that does not
return: the assertion on `MemPoolBuffer`, or the division by a zero stride. -/
def MemPoolCreateStatic (cfg : Config) (plat : Platform) (ItemSize ItemCount Buffer
    BufferSize MemPoolBuffer : Nat) (h : Heap) : Option (Nat × Heap) :=
  if MemPoolBuffer = 0 then none
  else if ItemSize = 0 ∨ Buffer = 0 then some (0, h)
  else
    let isize := itemStride plat ItemSize
    let item := MEMPOOL_ALIGN plat Buffer
    let usable := usableSize plat Buffer BufferSize
    if ItemCount = 0 ∧ isize = 0 then none
    else
      let count := staticCount plat ItemSize ItemCount Buffer BufferSize
      if count = 0 ∨ usable < (count * isize) % plat.size then some (0, h)
      else
        let r := linkItems cfg plat isize count item h.item
        some (MemPoolBuffer,
          { item := r.2
            pool := Function.update h.pool MemPoolBuffer
              { next := r.1, count := count,
                isize := if cfg.premap then 0 else isize, allocated := false } })

/-! ## Allocation and release -/

/-- The lazy mapping step of `MemPoolAlloc` (lines 193-198), compiled in when
`MEMPOOL_PREMAP` is off: `if (pool->count && !item->next) { item->next = item + pool->isize;
item->next->next = NULL; }`. -/
def lazyMap (cfg : Config) (plat : Platform) (P : MemPool) (item : Nat)
    (mem : Nat → Nat) : Nat → Nat :=
  if cfg.premap = false ∧ P.count ≠ 0 ∧ mem item = 0 then
    let mem1 := Function.update mem item ((item + P.isize) % plat.size)
    Function.update mem1 (mem1 item) 0
  else mem

/-- The function `MemPoolAlloc` (lines 183-214). The result is the returned pointer
(`0` for `NULL`) and the memory; `none` when an assertion fires. -/
def MemPoolAlloc (cfg : Config) (plat : Platform) (pool : Nat) (h : Heap) :
    Option (Nat × Heap) :=
  if pool = 0 then none
  else
    let P := h.pool pool
    if P.count ≠ 0 then
      let item := P.next
      if item = 0 then none
      else
        let mem1 := lazyMap cfg plat P item h.item
        let P1 : MemPool := { P with next := mem1 item, count := P.count - 1 }
        let mem2 := if cfg.freeptr then Function.update mem1 item pool else mem1
        some ((item + hdrSize plat) % plat.size,
          { item := mem2, pool := Function.update h.pool pool P1 })
    else some (0, h)

/-- The item of a block pointer: `(uint8_t *)ptr - MEMPOOL_ALIGN(sizeof(struct MemItem))`
(lines 226 and 251). -/
def itemOf (plat : Platform) (ptr : Nat) : Nat :=
  (ptr + plat.size - hdrSize plat) % plat.size

/-- The locked section shared by `MemPoolFree` and `MemPoolFreePtr` (lines 232-238 and
256-262): `item->next = pool->next; pool->next = item; pool->count++`. -/
def pushItem (plat : Platform) (pool item : Nat) (h : Heap) : Heap :=
  let P := h.pool pool
  { item := Function.update h.item item P.next
    pool := Function.update h.pool pool
      { P with next := item, count := (P.count + 1) % plat.size } }

/-- The function `MemPoolFree` (lines 216-239); `none` when an assertion fires. -/
def MemPoolFree (cfg : Config) (plat : Platform) (pool ptr : Nat) (h : Heap) :
    Option Heap :=
  if pool = 0 then none
  else if ptr = 0 then some h
  else
    let item := itemOf plat ptr
    if item = 0 then none
    else if cfg.freeptr = true ∧ h.item item ≠ pool then none
    else some (pushItem plat pool item h)

/-- The function `MemPoolFreePtr` (lines 241-266); `none` when an assertion fires. -/
def MemPoolFreePtr (cfg : Config) (plat : Platform) (ptr : Nat) (h : Heap) :
    Option Heap :=
  if cfg.freeptr then
    if ptr = 0 then some h
    else
      let item := itemOf plat ptr
      if item = 0 then none
      else
        let pool := h.item item
        if pool = 0 then none
        else some (pushItem plat pool item h)
  else
    if ptr = 0 then some h else none

/-- The conversion of a `size_t` to `int`: reduction modulo `2 ^ intBits` into the
signed range. -/
def toInt (plat : Platform) (x : Nat) : Int :=
  if x % 2 ^ plat.intBits < 2 ^ (plat.intBits - 1) then ((x % 2 ^ plat.intBits : Nat) : Int)
  else ((x % 2 ^ plat.intBits : Nat) : Int) - ((2 ^ plat.intBits : Nat) : Int)

/-- The conversion of an `int` to `size_t`: reduction modulo `2 ^ ptrBits`. -/
def ofInt (plat : Platform) (i : Int) : Nat :=
  (i % ((plat.size : Nat) : Int)).toNat

/-- The function `MemPoolAvailable` (lines 268-279): the count goes through the local
`int count` before it is returned as a `size_t`. -/
def MemPoolAvailable (plat : Platform) (pool : Nat) (h : Heap) : Nat :=
  if pool = 0 then 0 else ofInt plat (toInt plat (h.pool pool).count)

/-- The detour of `MemPoolAvailable` through `int` loses nothing for counts up to `n`:
`n` is at most `INT_MAX`, or `int` is as wide as `size_t`. -/
def IntExact (plat : Platform) (n : Nat) : Prop :=
  n < 2 ^ (plat.intBits - 1) ∨ plat.intBits = plat.ptrBits

/-! ## Layout of a pool and the invariant of its free list -/

/-- Where the slots of a pool are: the address of the first item, the stride and the
number of items. -/
structure Layout where
  /-- Address of the first item. -/
  base : Nat
  /-- Distance in bytes between two items. -/
  stride : Nat
  /-- Number of items. -/
  cap : Nat

/-- Address of the item with index `k`. -/
def Layout.slot (g : Layout) (k : Nat) : Nat := g.base + k * g.stride

/-- The slots really exist: they start above `NULL`, each holds at least the aligned
item header, and all of them, and the address one past the last, are addresses. -/
def Layout.Valid (plat : Platform) (g : Layout) : Prop :=
  0 < g.base ∧ 0 < g.stride ∧ hdrSize plat ≤ g.stride ∧
    g.base + g.cap * g.stride < plat.size

/-- Addresses of the items with index below `v`, in storage order. -/
def slotsBelow (g : Layout) (v : Nat) : List Nat := (List.range v).map g.slot

/-- The list `l` is what one reads following the links from `hd`, and the link of its
last element is `t`. -/
def Chain (mem : Nat → Nat) : Nat → List Nat → Nat → Prop
  | hd, [], t => hd = t
  | hd, a :: l, t => hd = a ∧ Chain mem (mem a) l t

/-- The invariant of pool `p` with layout `g` in memory `h`, when the blocks in `live`
are allocated. The witnesses are the free list `fl`, the allocated items `li` and the
number `v` of items linked so far (all of them in a premap build). -/
def Inv (cfg : Config) (plat : Platform) (g : Layout) (p : Nat) (h : Heap)
    (live : List Nat) : Prop :=
  ∃ (fl li : List Nat) (v : Nat),
    v ≤ g.cap ∧ (cfg.premap = true → v = g.cap) ∧
    Chain h.item (h.pool p).next fl (if cfg.premap = true then 0 else g.slot v) ∧
    (cfg.premap = false → h.item (g.slot v) = 0 ∧ (h.pool p).isize = g.stride) ∧
    (h.pool p).count = fl.length + (g.cap - v) ∧
    List.Perm (fl ++ li) (slotsBelow g v) ∧
    live = li.map (fun a => a + hdrSize plat) ∧
    (cfg.freeptr = true → ∀ a ∈ li, h.item a = p)

/-! ## Pools produced by the constructors and the states they reach -/

/-- A pool handed out by one of the two constructors: its handle, the memory right
after the call and the layout of its slots. -/
inductive Created (cfg : Config) (plat : Platform) : Nat → Heap → Layout → Prop
  | dynamic (pvPortMalloc : Nat → Nat) (ItemSize ItemCount : Nat) (h0 : Heap) {p : Nat}
      {h : Heap} :
      MemPoolCreate cfg plat pvPortMalloc ItemSize ItemCount h0 = (p, h) → p ≠ 0 →
      Created cfg plat p h
        { base := (p + MEMPOOL_ALIGN plat plat.sizeofMemPool) % plat.size
          stride := itemStride plat ItemSize
          cap := ItemCount }
  | static (ItemSize ItemCount Buffer BufferSize MemPoolBuffer : Nat) (h0 : Heap) {p : Nat}
      {h : Heap} :
      MemPoolCreateStatic cfg plat ItemSize ItemCount Buffer BufferSize MemPoolBuffer h0
        = some (p, h) → p ≠ 0 →
      Created cfg plat p h
        { base := MEMPOOL_ALIGN plat Buffer
          stride := itemStride plat ItemSize
          cap := (h.pool p).count }

/-- The states of pool `p` reachable from memory `h0`, each with the list of the block
pointers that are allocated in it. The steps are successful and failed allocations,
releases of an allocated block through `MemPoolFree` or `MemPoolFreePtr`, and any
activity of the rest of the program that leaves alone the descriptor of the pool and
the link words of its slots (in a lazy build also the one after the last slot). -/
inductive Reachable (cfg : Config) (plat : Platform) (g : Layout) (p : Nat) (h0 : Heap) :
    Heap → List Nat → Prop
  | init : Reachable cfg plat g p h0 h0 []
  | alloc {h h1 : Heap} {live : List Nat} {ptr : Nat} :
      Reachable cfg plat g p h0 h live → MemPoolAlloc cfg plat p h = some (ptr, h1) →
      ptr ≠ 0 → Reachable cfg plat g p h0 h1 (ptr :: live)
  | allocNull {h h1 : Heap} {live : List Nat} :
      Reachable cfg plat g p h0 h live → MemPoolAlloc cfg plat p h = some (0, h1) →
      Reachable cfg plat g p h0 h1 live
  | free {h h1 : Heap} {live : List Nat} {ptr : Nat} :
      Reachable cfg plat g p h0 h live → ptr ∈ live →
      MemPoolFree cfg plat p ptr h = some h1 →
      Reachable cfg plat g p h0 h1 (live.erase ptr)
  | freePtr {h h1 : Heap} {live : List Nat} {ptr : Nat} :
      Reachable cfg plat g p h0 h live → ptr ∈ live →
      MemPoolFreePtr cfg plat ptr h = some h1 →
      Reachable cfg plat g p h0 h1 (live.erase ptr)
  | other {h h1 : Heap} {live : List Nat} :
      Reachable cfg plat g p h0 h live → h1.pool p = h.pool p →
      (∀ k, k < g.cap ∨ (cfg.premap = false ∧ k = g.cap) →
        h1.item (g.slot k) = h.item (g.slot k)) →
      Reachable cfg plat g p h0 h1 live

/-! ## A concrete pool, used to instantiate the theorems -/

/-- A memory with nothing in it. -/
def emptyHeap : Heap :=
  { item := fun _ => 0
    pool := fun _ => { next := 0, count := 0, isize := 0, allocated := false } }

/-- The memory of a run, or the empty memory when the run stopped on an assertion. -/
def heapOf (r : Option (Nat × Heap)) : Heap :=
  match r with
  | some x => x.2
  | none => emptyHeap

/-- The memory after `MemPoolCreateStatic(4, 2, 0x1000, 64, 0x2000)` on the 32-bit port,
default build. -/
def demoHeap0 : Heap :=
  heapOf (MemPoolCreateStatic defaultConfig ilp32 4 2 4096 64 8192 emptyHeap)

/-- The layout of the pool of `demoHeap0`: two slots of 16 bytes from `0x1000`. -/
def demoLayout : Layout := { base := 4096, stride := 16, cap := 2 }

/-- The memory after one `MemPoolAlloc` on the pool of `demoHeap0`. -/
def demoHeap1 : Heap := heapOf (MemPoolAlloc defaultConfig ilp32 8192 demoHeap0)

/-- A number of calls of `MemPoolAlloc` in a row: the pointers returned, first call
first, and the memory after the last call; `none` when one of the calls asserts. -/
def allocMany (cfg : Config) (plat : Platform) (p : Nat) : Nat → Heap →
    Option (List Nat × Heap)
  | 0, h => some ([], h)
  | n + 1, h =>
    match MemPoolAlloc cfg plat p h with
    | none => none
    | some (ptr, h1) =>
      match allocMany cfg plat p n h1 with
      | none => none
      | some (ptrs, h2) => some (ptr :: ptrs, h2)

/-! ## Deletion, allocator requests and runs of operations -/

/-- The byte counts `MemPoolCreate` passes to `pvPortMalloc`: the one of line 100, and
none when the guard of line 94 returns first. -/
def mallocRequests (plat : Platform) (ItemSize ItemCount : Nat) : List Nat :=
  if ItemSize = 0 ∨ ItemCount = 0 then []
  else [(MEMPOOL_ALIGN plat plat.sizeofMemPool + ItemCount * itemStride plat ItemSize)
    % plat.size]

/-- The lazy build with ownership tags: `MEMPOOL_PREMAP` 0, `MEMPOOL_FREEPTR` 1. -/
def lazyConfig : Config := { premap := false, freeptr := true }

/-- A memory whose link words all hold the pattern `0xEE`, to see what a call writes. -/
def markedHeap : Heap :=
  { item := fun _ => 238
    pool := fun _ => { next := 0, count := 0, isize := 0, allocated := false } }

/-- The memory after `MemPoolCreateStatic(4, 1, 0x1000, 16, 0x2000)` on the 32-bit port,
lazy build, started in `markedHeap`: one slot, in a buffer of exactly one stride. -/
def lazyHeap0 : Heap :=
  heapOf (MemPoolCreateStatic lazyConfig ilp32 4 1 4096 16 8192 markedHeap)

/-- The memory after one `MemPoolAlloc` on the pool of `lazyHeap0`. -/
def lazyHeap1 : Heap := heapOf (MemPoolAlloc lazyConfig ilp32 8192 lazyHeap0)

/-- An operation of a caller on a pool: an allocation, or the release of the block at
position `i` of the list of the blocks that are allocated (latest first). -/
inductive PoolOp
  | alloc
  | free (i : Nat)

/-- Why a run of operations stops early: an operation names a block that does not exist,
or an assertion fires. -/
inductive RunStop
  | invalid
  | assertion

/-- Puts the observation of one operation in front of those of the rest of the run. -/
def consObs (x : Bool × Nat) :
    Except RunStop (List (Bool × Nat)) → Except RunStop (List (Bool × Nat))
  | Except.error e => Except.error e
  | Except.ok obs => Except.ok (x :: obs)

/-- A run of operations on pool `p` from memory `h` with the blocks `live` allocated. It
gives, for each operation, whether `MemPoolAlloc` returned `NULL` (false for a release)
and what `MemPoolAvailable` returns after it. -/
def runOps (cfg : Config) (plat : Platform) (p : Nat) :
    List PoolOp → Heap → List Nat → Except RunStop (List (Bool × Nat))
  | [], _, _ => Except.ok []
  | PoolOp.alloc :: ops, h, live =>
    match MemPoolAlloc cfg plat p h with
    | none => Except.error RunStop.assertion
    | some (ptr, h1) =>
      consObs (decide (ptr = 0), MemPoolAvailable plat p h1)
        (runOps cfg plat p ops h1 (if ptr = 0 then live else ptr :: live))
  | PoolOp.free i :: ops, h, live =>
    match live.get? i with
    | none => Except.error RunStop.invalid
    | some ptr =>
      match MemPoolFree cfg plat p ptr h with
      | none => Except.error RunStop.assertion
      | some h1 =>
        consObs (false, MemPoolAvailable plat p h1) (runOps cfg plat p ops h1 (live.erase ptr))

/-- The memory after `MemPoolCreateStatic(4, 2, 0x1000, 64, 0x2000)` on the 32-bit port,
lazy build: the pool of `demoHeap0` built lazily. -/
def lazyDemoHeap0 : Heap :=
  heapOf (MemPoolCreateStatic lazyConfig ilp32 4 2 4096 64 8192 emptyHeap)

/-- The memory after `MemPoolCreateStatic(4, 1, 0x1000, 16, 0x1010)` on the 32-bit port,
lazy build: one slot in a buffer of exactly one stride, and the pool descriptor in the
storage that follows the buffer. -/
def adjHeap0 : Heap :=
  heapOf (MemPoolCreateStatic lazyConfig ilp32 4 1 4096 16 4112 emptyHeap)

/-- The memory after `MemPoolAlloc` on the pool of `adjHeap0`: the block `0x1008`. -/
def adjHeap1 : Heap := heapOf (MemPoolAlloc lazyConfig ilp32 4112 adjHeap0)

/-- The memory of a release, or the empty memory when the release stopped on an
assertion. -/
def heapOfFree (r : Option Heap) : Heap :=
  match r with
  | some x => x
  | none => emptyHeap

/-- The memory after `MemPoolFree` of the block `0x1008` in `adjHeap1`. -/
def adjHeap2 : Heap := heapOfFree (MemPoolFree lazyConfig ilp32 4112 4104 adjHeap1)

/-- The memory after a second `MemPoolFree` of the block `0x1008`, in `adjHeap2`. -/
def adjHeap3 : Heap := heapOfFree (MemPoolFree lazyConfig ilp32 4112 4104 adjHeap2)

/-- The memory after `MemPoolFree` of the block `0x1008` in `lazyHeap1`. -/
def lazyHeap2 : Heap := heapOfFree (MemPoolFree lazyConfig ilp32 8192 4104 lazyHeap1)

/-- The reachable states of a pool, as in `Reachable`, each with a second list beside
the allocated blocks: the blocks that were released and not handed out again since. -/
inductive Released (cfg : Config) (plat : Platform) (g : Layout) (p : Nat) (h0 : Heap) :
    Heap → List Nat → List Nat → Prop
  | init : Released cfg plat g p h0 h0 [] []
  | alloc {h h1 : Heap} {live freed : List Nat} {ptr : Nat} :
      Released cfg plat g p h0 h live freed → MemPoolAlloc cfg plat p h = some (ptr, h1) →
      ptr ≠ 0 →
      Released cfg plat g p h0 h1 (ptr :: live) (freed.filter (fun q => q != ptr))
  | allocNull {h h1 : Heap} {live freed : List Nat} :
      Released cfg plat g p h0 h live freed → MemPoolAlloc cfg plat p h = some (0, h1) →
      Released cfg plat g p h0 h1 live freed
  | free {h h1 : Heap} {live freed : List Nat} {ptr : Nat} :
      Released cfg plat g p h0 h live freed → ptr ∈ live →
      MemPoolFree cfg plat p ptr h = some h1 →
      Released cfg plat g p h0 h1 (live.erase ptr) (ptr :: freed)
  | freePtr {h h1 : Heap} {live freed : List Nat} {ptr : Nat} :
      Released cfg plat g p h0 h live freed → ptr ∈ live →
      MemPoolFreePtr cfg plat ptr h = some h1 →
      Released cfg plat g p h0 h1 (live.erase ptr) (ptr :: freed)
  | other {h h1 : Heap} {live freed : List Nat} :
      Released cfg plat g p h0 h live freed → h1.pool p = h.pool p →
      (∀ k, k < g.cap ∨ (cfg.premap = false ∧ k = g.cap) →
        h1.item (g.slot k) = h.item (g.slot k)) →
      Released cfg plat g p h0 h1 live freed

/-! ## Descriptor outside the slots -/

/-- The descriptor of pool `p` shares no byte with the slots of layout `g`: it ends at
or before the first slot, or it starts at or after the end of the last one. -/
def Layout.Apart (plat : Platform) (g : Layout) (p : Nat) : Prop :=
  p + plat.sizeofMemPool ≤ g.base ∨ g.base + g.cap * g.stride ≤ p

/-! ## Pools at the edge of the `size_t` range -/

/-- The memory after `MemPoolCreateStatic(0xFFFFFFF8, 2, 0x1000, 16, 0x2000)` on the
32-bit port, default build: the stride `8 + 0xFFFFFFF8` wraps to zero. -/
def wrapHeap0 : Heap :=
  heapOf (MemPoolCreateStatic defaultConfig ilp32 4294967288 2 4096 16 8192 emptyHeap)

/-- The memory after `MemPoolAlloc` on the pool of `wrapHeap0`. -/
def wrapHeap1 : Heap := heapOf (MemPoolAlloc defaultConfig ilp32 8192 wrapHeap0)

/-- The memory after a second `MemPoolAlloc` on the pool of `wrapHeap0`. -/
def wrapHeap2 : Heap := heapOf (MemPoolAlloc defaultConfig ilp32 8192 wrapHeap1)

/-- The memory after `MemPoolCreateStatic(0xFFFFFFF8, 2, 0x1000, 16, 0x2000)` on the
32-bit port, lazy build: the pool of `wrapHeap0` built lazily. -/
def lazyWrapHeap0 : Heap :=
  heapOf (MemPoolCreateStatic lazyConfig ilp32 4294967288 2 4096 16 8192 emptyHeap)

/-- The memory after `MemPoolAlloc` on the pool of `lazyWrapHeap0`. -/
def lazyWrapHeap1 : Heap := heapOf (MemPoolAlloc lazyConfig ilp32 8192 lazyWrapHeap0)

/-- The memory after `MemPoolCreateStatic(4, 0, 0x1001, 3, 0x2000)` on the 32-bit port,
lazy build: a buffer of three bytes that starts one byte after an aligned address. -/
def padHeap0 : Heap :=
  heapOf (MemPoolCreateStatic lazyConfig ilp32 4 0 4097 3 8192 emptyHeap)

/-! ## Lemmas on layouts and chains -/

theorem Chain.congr {mem mem1 : Nat → Nat} {l : List Nat} {hd t : Nat}
    (hagree : ∀ a ∈ l, mem1 a = mem a) (hc : Chain mem hd l t) : Chain mem1 hd l t := by
  induction l generalizing hd with
  | nil => exact hc
  | cons a l ih =>
    obtain ⟨h1, h2⟩ := hc
    refine ⟨h1, ?_⟩
    rw [hagree a (List.mem_cons_self a l)]
    exact ih (fun b hb => hagree b (List.mem_cons_of_mem a hb)) h2

theorem slot_lt_slot {g : Layout} (hs : 0 < g.stride) {i j : Nat} (hij : i < j) :
    g.slot i < g.slot j := by
  unfold Layout.slot
  have := Nat.mul_lt_mul_of_pos_right hij hs
  omega

theorem slot_injective {g : Layout} (hs : 0 < g.stride) : Function.Injective g.slot := by
  intro i j hij
  rcases Nat.lt_trichotomy i j with h | h | h
  · exact absurd hij (Nat.ne_of_lt (slot_lt_slot hs h))
  · exact h
  · exact absurd hij.symm (Nat.ne_of_lt (slot_lt_slot hs h))

theorem slot_succ (g : Layout) (k : Nat) : g.slot (k + 1) = g.slot k + g.stride := by
  unfold Layout.slot
  rw [Nat.add_mul]
  omega

theorem slot_le_slot (g : Layout) {i j : Nat} (hij : i ≤ j) : g.slot i ≤ g.slot j := by
  unfold Layout.slot
  have := Nat.mul_le_mul_right g.stride hij
  omega

theorem slotsBelow_nodup {g : Layout} (hs : 0 < g.stride) (v : Nat) :
    (slotsBelow g v).Nodup :=
  (List.nodup_range v).map (slot_injective hs)

theorem mem_slotsBelow {g : Layout} {v a : Nat} :
    a ∈ slotsBelow g v ↔ ∃ k, k < v ∧ g.slot k = a := by
  simp [slotsBelow]

theorem slotsBelow_succ (g : Layout) (v : Nat) :
    slotsBelow g (v + 1) = slotsBelow g v ++ [g.slot v] := by
  simp [slotsBelow, List.range_succ]

/-- Bounds of a slot of a valid layout. -/
theorem slot_bounds {plat : Platform} {g : Layout} (hv : g.Valid plat) {k : Nat}
    (hk : k ≤ g.cap) : 0 < g.slot k ∧ g.slot k < plat.size := by
  obtain ⟨hb, _, _, hend⟩ := hv
  have := slot_le_slot g hk
  unfold Layout.slot at *
  omega

/-- The block pointer of a slot below the capacity does not wrap. -/
theorem slot_ptr_bounds {plat : Platform} {g : Layout} (hv : g.Valid plat) {k : Nat}
    (hk : k < g.cap) : g.slot k + hdrSize plat < plat.size := by
  obtain ⟨hb, _, hh, hend⟩ := hv
  have h1 := slot_le_slot g (show k + 1 ≤ g.cap from hk)
  have h2 := slot_succ g k
  unfold Layout.slot at *
  omega

theorem itemOf_ptr {plat : Platform} {a : Nat} (ha : a + hdrSize plat < plat.size) :
    itemOf plat (a + hdrSize plat) = a := by
  unfold itemOf
  have : a + hdrSize plat + plat.size - hdrSize plat = a + plat.size := by omega
  rw [this, Nat.add_mod_right]
  exact Nat.mod_eq_of_lt (by omega)
/-! ## One step of allocation and release -/

theorem lazyMap_of_premap {cfg : Config} (plat : Platform) (P : MemPool) (item : Nat)
    (mem : Nat → Nat) (hpm : cfg.premap = true) : lazyMap cfg plat P item mem = mem := by
  simp [lazyMap, hpm]

theorem lazyMap_of_linked (cfg : Config) (plat : Platform) (P : MemPool) {item : Nat}
    {mem : Nat → Nat} (hl : mem item ≠ 0) : lazyMap cfg plat P item mem = mem := by
  simp [lazyMap, hl]

theorem lazyMap_of_virgin {cfg : Config} (plat : Platform) {P : MemPool} {item : Nat}
    {mem : Nat → Nat} (hpm : cfg.premap = false) (hc : P.count ≠ 0) (hl : mem item = 0) :
    lazyMap cfg plat P item mem =
      Function.update (Function.update mem item ((item + P.isize) % plat.size))
        ((item + P.isize) % plat.size) 0 := by
  simp [lazyMap, hpm, hc, hl]

theorem MemPoolAlloc_of_empty (cfg : Config) (plat : Platform) {p : Nat} {h : Heap}
    (hp : p ≠ 0) (hc : (h.pool p).count = 0) : MemPoolAlloc cfg plat p h = some (0, h) := by
  simp [MemPoolAlloc, hp, hc]

theorem MemPoolAlloc_of_head (cfg : Config) (plat : Platform) {p : Nat} {h : Heap}
    (hp : p ≠ 0) (hc : (h.pool p).count ≠ 0) (hn : (h.pool p).next ≠ 0) :
    MemPoolAlloc cfg plat p h =
      some (((h.pool p).next + hdrSize plat) % plat.size,
        { item :=
            if cfg.freeptr = true then
              Function.update (lazyMap cfg plat (h.pool p) (h.pool p).next h.item)
                (h.pool p).next p
            else lazyMap cfg plat (h.pool p) (h.pool p).next h.item
          pool := Function.update h.pool p
            { h.pool p with
              next := lazyMap cfg plat (h.pool p) (h.pool p).next h.item (h.pool p).next
              count := (h.pool p).count - 1 } }) := by
  simp [MemPoolAlloc, hp, hc, hn]

/-- The first element of a chain, or its end, is never `NULL` when the elements and
the end are not. -/
theorem Chain.head_ne_zero {mem : Nat → Nat} {l : List Nat} {hd t : Nat}
    (hc : Chain mem hd l t) (hl : ∀ a ∈ l, a ≠ 0) (ht : t ≠ 0) : hd ≠ 0 := by
  cases l with
  | nil => rw [show hd = t from hc]; exact ht
  | cons a l => rw [hc.1]; exact hl a (List.mem_cons_self a l)

theorem inv_alloc {cfg : Config} {plat : Platform} {g : Layout} {p : Nat} {h : Heap}
    {live : List Nat} (hv : g.Valid plat) (hp : p ≠ 0) (hinv : Inv cfg plat g p h live)
    (hc : (h.pool p).count ≠ 0) :
    ∃ ptr h1, MemPoolAlloc cfg plat p h = some (ptr, h1) ∧ ptr ≠ 0 ∧ ptr ∉ live ∧
      (h1.pool p).count + 1 = (h.pool p).count ∧ Inv cfg plat g p h1 (ptr :: live) := by
  obtain ⟨fl, li, v, hvle, hpre, hchain, hlazy, hcount, hperm, hlive, htag⟩ := hinv
  have hs : 0 < g.stride := hv.2.1
  have hnd : (fl ++ li).Nodup := hperm.nodup_iff.mpr (slotsBelow_nodup hs v)
  have hmem : ∀ a, a ∈ fl ++ li → ∃ k, k < v ∧ g.slot k = a := fun a ha =>
    mem_slotsBelow.mp (hperm.mem_iff.mp ha)
  cases fl with
  | cons a fl1 =>
    obtain ⟨hhd, hch⟩ := hchain
    subst hhd
    obtain ⟨k, hk, hka⟩ := hmem (h.pool p).next (by simp)
    have hkcap : k < g.cap := Nat.lt_of_lt_of_le hk hvle
    have ha0 : (h.pool p).next ≠ 0 := by
      have := (slot_bounds hv (Nat.le_of_lt hkcap)).1
      omega
    have hptr : (h.pool p).next + hdrSize plat < plat.size := hka ▸ slot_ptr_bounds hv hkcap
    have hafl : (h.pool p).next ∉ fl1 := by
      have := hnd
      simp only [List.cons_append, List.nodup_cons, List.mem_append] at this
      exact fun hx => this.1 (Or.inl hx)
    have hali : (h.pool p).next ∉ li := by
      have := hnd
      simp only [List.cons_append, List.nodup_cons, List.mem_append] at this
      exact fun hx => this.1 (Or.inr hx)
    have hav : (h.pool p).next ≠ g.slot v := by
      rw [← hka]
      exact Nat.ne_of_lt (slot_lt_slot hs hk)
    -- the link of a listed item is never NULL in a lazy build
    have hlink : cfg.premap = false → h.item (h.pool p).next ≠ 0 := by
      intro hpm
      refine Chain.head_ne_zero hch ?_ ?_
      · intro b hb
        obtain ⟨j, hj, hjb⟩ := hmem b (by simp [hb])
        have := (slot_bounds hv (Nat.le_of_lt (Nat.lt_of_lt_of_le hj hvle))).1
        omega
      · simp only [hpm, Bool.false_eq_true, ↓reduceIte]
        have := (slot_bounds hv hvle).1
        omega
    have hlm : lazyMap cfg plat (h.pool p) (h.pool p).next h.item = h.item := by
      cases hpm : cfg.premap with
      | true => exact lazyMap_of_premap plat _ _ _ hpm
      | false => exact lazyMap_of_linked cfg plat _ (hlink hpm)
    refine ⟨_, _, MemPoolAlloc_of_head cfg plat hp hc ha0, ?_, ?_, ?_, ?_⟩
    · rw [Nat.mod_eq_of_lt hptr]; omega
    · rw [Nat.mod_eq_of_lt hptr, hlive]
      simp only [List.mem_map, not_exists, not_and]
      intro b hb hba
      have : b = (h.pool p).next := by omega
      exact hali (this ▸ hb)
    · simp only [Function.update_same]
      simp only [List.length_cons] at hcount
      omega
    · refine ⟨fl1, (h.pool p).next :: li, v, hvle, hpre, ?_, ?_, ?_, ?_, ?_, ?_⟩
      · simp only [Function.update_same, hlm]
        refine Chain.congr ?_ hch
        intro b hb
        split
        · rw [Function.update_noteq (fun hba : b = (h.pool p).next => hafl (hba ▸ hb))]
        · rfl
      · intro hpm
        obtain ⟨hz, his⟩ := hlazy hpm
        simp only [Function.update_same, hlm]
        refine ⟨?_, his⟩
        split
        · rw [Function.update_noteq (Ne.symm hav)]; exact hz
        · exact hz
      · simp only [Function.update_same]
        simp only [List.length_cons] at hcount
        omega
      · exact (List.perm_middle).trans hperm
      · rw [Nat.mod_eq_of_lt hptr, hlive]; rfl
      · intro hfp b hb
        simp only [hfp, ↓reduceIte, hlm]
        rcases List.mem_cons.mp hb with hba | hbl
        · rw [hba, Function.update_same]
        · rw [Function.update_noteq (fun hba : b = (h.pool p).next => hali (hba ▸ hbl))]
          exact htag hfp b hbl
  | nil =>
    have hhead : (h.pool p).next = if cfg.premap = true then 0 else g.slot v := hchain
    simp only [List.length_nil, Nat.zero_add] at hcount
    have hvlt : v < g.cap := by omega
    have hpm : cfg.premap = false := by
      cases hcp : cfg.premap with
      | false => rfl
      | true => exact absurd (hpre hcp) (by omega)
    obtain ⟨hz, his⟩ := hlazy hpm
    simp only [hpm, Bool.false_eq_true, ↓reduceIte] at hhead
    have hb0 := slot_bounds hv hvle
    have hb1 := slot_bounds hv (show v + 1 ≤ g.cap from hvlt)
    have hptr : g.slot v + hdrSize plat < plat.size := slot_ptr_bounds hv hvlt
    have hnx : (g.slot v + (h.pool p).isize) % plat.size = g.slot (v + 1) := by
      rw [his, ← slot_succ]
      exact Nat.mod_eq_of_lt hb1.2
    have hne : g.slot (v + 1) ≠ g.slot v := Nat.ne_of_gt (slot_lt_slot hs (Nat.lt_succ_self v))
    have hn : (h.pool p).next ≠ 0 := by rw [hhead]; omega
    have hlm : lazyMap cfg plat (h.pool p) (h.pool p).next h.item =
        Function.update (Function.update h.item (g.slot v) (g.slot (v + 1)))
          (g.slot (v + 1)) 0 := by
      rw [hhead, lazyMap_of_virgin plat hpm hc hz, hnx]
    have hli : ∀ b ∈ li, b ≠ g.slot v ∧ b ≠ g.slot (v + 1) := by
      intro b hb
      obtain ⟨j, hj, hjb⟩ := hmem b (by simp [hb])
      rw [← hjb]
      exact ⟨Nat.ne_of_lt (slot_lt_slot hs hj),
        Nat.ne_of_lt (slot_lt_slot hs (Nat.lt_succ_of_lt hj))⟩
    have hvli : g.slot v ∉ li := fun hx => (hli _ hx).1 rfl
    refine ⟨_, _, MemPoolAlloc_of_head cfg plat hp hc hn, ?_, ?_, ?_, ?_⟩
    · rw [hhead, Nat.mod_eq_of_lt hptr]; omega
    · rw [hhead, Nat.mod_eq_of_lt hptr, hlive]
      simp only [List.mem_map, not_exists, not_and]
      intro b hb hba
      have : b = g.slot v := by omega
      exact hvli (this ▸ hb)
    · simp only [Function.update_same]
      omega
    · refine ⟨[], g.slot v :: li, v + 1, hvlt, fun hcp => by simp [hpm] at hcp, ?_, ?_, ?_,
        ?_, ?_, ?_⟩
      · simp only [Function.update_same, hlm, hpm, Bool.false_eq_true, ↓reduceIte]
        show _ = _
        rw [hhead, Function.update_noteq (Ne.symm hne), Function.update_same]
      · intro _
        simp only [Function.update_same, hlm]
        refine ⟨?_, his⟩
        rw [hhead]
        split
        · rw [Function.update_noteq hne, Function.update_same]
        · rw [Function.update_same]
      · simp only [Function.update_same, List.length_nil]
        omega
      · rw [slotsBelow_succ]
        simp only [List.nil_append] at hperm ⊢
        exact (List.perm_append_singleton _ _).symm.trans (hperm.append_right _)
      · rw [hhead, Nat.mod_eq_of_lt hptr, hlive]; rfl
      · intro hfp b hb
        simp only [hfp, ↓reduceIte, hlm]
        rw [hhead]
        rcases List.mem_cons.mp hb with hba | hbl
        · rw [hba, Function.update_same]
        · obtain ⟨h1, h2⟩ := hli b hbl
          rw [Function.update_noteq h1, Function.update_noteq h2, Function.update_noteq h1]
          exact htag hfp b hbl
theorem inv_free {cfg : Config} {plat : Platform} {g : Layout} {p : Nat} {h : Heap}
    {live : List Nat} {ptr : Nat} (hv : g.Valid plat) (hp : p ≠ 0)
    (hinv : Inv cfg plat g p h live) (hlv : ptr ∈ live) :
    MemPoolFree cfg plat p ptr h = some (pushItem plat p (itemOf plat ptr) h) ∧
    (cfg.freeptr = true →
      MemPoolFreePtr cfg plat ptr h = some (pushItem plat p (itemOf plat ptr) h) ∧
      h.item (itemOf plat ptr) = p) ∧
    ((pushItem plat p (itemOf plat ptr) h).pool p).count = (h.pool p).count + 1 ∧
    ptr ≠ 0 ∧ itemOf plat ptr ≠ 0 ∧ itemOf plat ptr + hdrSize plat = ptr ∧
    Inv cfg plat g p (pushItem plat p (itemOf plat ptr) h) (live.erase ptr) := by
  obtain ⟨fl, li, v, hvle, hpre, hchain, hlazy, hcount, hperm, hlive, htag⟩ := hinv
  have hs : 0 < g.stride := hv.2.1
  have hnd : (fl ++ li).Nodup := hperm.nodup_iff.mpr (slotsBelow_nodup hs v)
  have hmem : ∀ a, a ∈ fl ++ li → ∃ k, k < v ∧ g.slot k = a := fun a ha =>
    mem_slotsBelow.mp (hperm.mem_iff.mp ha)
  rw [hlive] at hlv
  obtain ⟨a, hali, hap⟩ := List.mem_map.mp hlv
  obtain ⟨k, hk, hka⟩ := hmem a (by simp [hali])
  have hkcap : k < g.cap := Nat.lt_of_lt_of_le hk hvle
  have ha0 : a ≠ 0 := by
    have := (slot_bounds hv (Nat.le_of_lt hkcap)).1
    omega
  have hptr : a + hdrSize plat < plat.size := hka ▸ slot_ptr_bounds hv hkcap
  have hio : itemOf plat ptr = a := by rw [← hap]; exact itemOf_ptr hptr
  have hptr0 : ptr ≠ 0 := by omega
  have hafl : a ∉ fl := by
    intro hx
    exact (List.nodup_append.mp hnd).2.2 hx hali
  have hav : a ≠ g.slot v := by
    rw [← hka]
    exact Nat.ne_of_lt (slot_lt_slot hs hk)
  have hlen : fl.length + li.length = v := by
    have := hperm.length_eq
    simpa [slotsBelow] using this
  have hlipos : 0 < li.length := List.length_pos_of_mem hali
  have hcap : g.cap < plat.size := by
    obtain ⟨_, _, _, hend⟩ := hv
    have : g.cap * 1 ≤ g.cap * g.stride := Nat.mul_le_mul_left _ hs
    omega
  have hcnt : ((h.pool p).count + 1) % plat.size = (h.pool p).count + 1 :=
    Nat.mod_eq_of_lt (by omega)
  have hinj : Function.Injective (fun a => a + hdrSize plat) := fun x y hxy => by
    simp only at hxy; omega
  rw [hio]
  refine ⟨?_, ?_, ?_, hptr0, ha0, hap, ?_⟩
  · unfold MemPoolFree
    rw [hio]
    have : ¬ (cfg.freeptr = true ∧ h.item a ≠ p) := fun hx => hx.2 (htag hx.1 a hali)
    simp [hp, hptr0, ha0, this]
  · intro hfp
    refine ⟨?_, htag hfp a hali⟩
    unfold MemPoolFreePtr
    rw [hio]
    simp [hfp, hptr0, ha0, htag hfp a hali, hp]
  · simp [pushItem, hcnt]
  · refine ⟨a :: fl, li.erase a, v, hvle, hpre, ?_, ?_, ?_, ?_, ?_, ?_⟩
    · refine ⟨by simp [pushItem], ?_⟩
      simp only [pushItem, Function.update_same]
      refine Chain.congr ?_ hchain
      intro b hb
      rw [Function.update_noteq (fun hba : b = a => hafl (hba ▸ hb))]
    · intro hpm
      obtain ⟨hz, his⟩ := hlazy hpm
      simp only [pushItem, Function.update_same]
      refine ⟨?_, his⟩
      rw [Function.update_noteq (Ne.symm hav)]
      exact hz
    · simp only [pushItem, Function.update_same, hcnt, List.length_cons]
      omega
    · refine List.Perm.trans ?_ hperm
      simp only [List.cons_append]
      refine (@List.perm_middle _ a fl (li.erase a)).symm.trans ?_
      exact List.Perm.append_left fl (List.perm_cons_erase hali).symm
    · rw [hlive, ← hap, List.map_erase hinj]
    · intro hfp b hb
      have hbl : b ∈ li := List.mem_of_mem_erase hb
      have hndli : li.Nodup := (List.nodup_append.mp hnd).2.1
      have hba : b ≠ a := fun hx => by
        rw [hx] at hb
        exact (List.Nodup.not_mem_erase hndli) hb
      simp only [pushItem]
      rw [Function.update_noteq hba]
      exact htag hfp b hbl
/-! ## The invariant holds in every reachable state -/

theorem inv_other {cfg : Config} {plat : Platform} {g : Layout} {p : Nat} {h h1 : Heap}
    {live : List Nat} (hinv : Inv cfg plat g p h live) (hpool : h1.pool p = h.pool p)
    (hitem : ∀ k, k < g.cap ∨ (cfg.premap = false ∧ k = g.cap) →
      h1.item (g.slot k) = h.item (g.slot k)) :
    Inv cfg plat g p h1 live := by
  obtain ⟨fl, li, v, hvle, hpre, hchain, hlazy, hcount, hperm, hlive, htag⟩ := hinv
  have hmem : ∀ a, a ∈ fl ++ li → h1.item a = h.item a := by
    intro a ha
    obtain ⟨k, hk, hka⟩ := mem_slotsBelow.mp (hperm.mem_iff.mp ha)
    rw [← hka]
    exact hitem k (Or.inl (Nat.lt_of_lt_of_le hk hvle))
  refine ⟨fl, li, v, hvle, hpre, ?_, ?_, ?_, hperm, hlive, ?_⟩
  · rw [hpool]
    exact Chain.congr (fun a ha => hmem a (by simp [ha])) hchain
  · intro hpm
    rw [hpool]
    refine ⟨?_, (hlazy hpm).2⟩
    rw [hitem v ?_]
    · exact (hlazy hpm).1
    · rcases Nat.lt_or_ge v g.cap with hlt | hge
      · exact Or.inl hlt
      · exact Or.inr ⟨hpm, Nat.le_antisymm hvle hge⟩
  · rw [hpool]; exact hcount
  · intro hfp a ha
    rw [hmem a (by simp [ha])]
    exact htag hfp a ha

theorem premapLoop_spec (plat : Platform) {g : Layout} (hs : 0 < g.stride) :
    ∀ (k j : Nat) (mem : Nat → Nat), g.slot (j + k) < plat.size →
      (premapLoop plat g.stride k (g.slot j) mem).1 = g.slot (j + k) ∧
      (∀ i, j < i → i ≤ j + k →
        (premapLoop plat g.stride k (g.slot j) mem).2 (g.slot i) = g.slot (i - 1)) ∧
      (∀ a, (∀ i, j < i → i ≤ j + k → a ≠ g.slot i) →
        (premapLoop plat g.stride k (g.slot j) mem).2 a = mem a) := by
  intro k
  induction k with
  | zero =>
    intro j mem _
    refine ⟨rfl, ?_, ?_⟩
    · intro i h1 h2; omega
    · intro a _; rfl
  | succ k ih =>
    intro j mem hlt
    have hnext : (g.slot j + g.stride) % plat.size = g.slot (j + 1) := by
      rw [← slot_succ]
      refine Nat.mod_eq_of_lt (Nat.lt_of_le_of_lt (slot_le_slot g ?_) hlt)
      omega
    have hjk : j + 1 + k = j + (k + 1) := by omega
    obtain ⟨ih1, ih2, ih3⟩ :=
      ih (j + 1) (Function.update mem (g.slot (j + 1)) (g.slot j)) (by rw [hjk]; exact hlt)
    simp only [premapLoop, hnext]
    refine ⟨by rw [ih1, hjk], ?_, ?_⟩
    · intro i h1 h2
      rcases Nat.eq_or_lt_of_le (show j + 1 ≤ i from h1) with heq | hgt
      · subst heq
        rw [ih3 _ (fun i h3 _ => Nat.ne_of_lt (slot_lt_slot hs h3)), Function.update_same]
        rfl
      · exact ih2 i hgt (by omega)
    · intro a ha
      rw [ih3 a (fun i h3 h4 => ha i (by omega) (by omega))]
      exact Function.update_noteq (ha (j + 1) (by omega) (by omega)) _ _

theorem chain_down (mem : Nat → Nat) (g : Layout) :
    ∀ m : Nat, (∀ i, 0 < i → i ≤ m → mem (g.slot i) = g.slot (i - 1)) →
      mem (g.slot 0) = 0 →
      Chain mem (g.slot m) ((slotsBelow g (m + 1)).reverse) 0 := by
  intro m
  induction m with
  | zero =>
    intro _ h0
    simp only [slotsBelow, List.range_succ, List.range_zero, List.nil_append, List.map_cons,
      List.map_nil, List.reverse_cons, List.reverse_nil]
    exact ⟨rfl, h0⟩
  | succ m ih =>
    intro hl h0
    rw [slotsBelow_succ, List.reverse_append]
    refine ⟨rfl, ?_⟩
    rw [hl (m + 1) (by omega) (by omega)]
    exact ih (fun i h1 h2 => hl i h1 (by omega)) h0

theorem linkItems_inv {cfg : Config} {plat : Platform} {g : Layout} {p : Nat} {h : Heap}
    (hv : g.Valid plat) (hcap : 0 < g.cap) (mem : Nat → Nat)
    (hitem : h.item = (linkItems cfg plat g.stride g.cap g.base mem).2)
    (hnext : (h.pool p).next = (linkItems cfg plat g.stride g.cap g.base mem).1)
    (hcount : (h.pool p).count = g.cap)
    (hisize : cfg.premap = false → (h.pool p).isize = g.stride) :
    Inv cfg plat g p h [] := by
  have hs : 0 < g.stride := hv.2.1
  have hbase : g.base = g.slot 0 := by simp [Layout.slot]
  cases hpm : cfg.premap with
  | false =>
    simp only [linkItems, hpm, Bool.false_eq_true, ↓reduceIte] at hitem hnext
    refine ⟨[], [], 0, Nat.zero_le _, fun hx => by simp [hpm] at hx, ?_, ?_, ?_, ?_, rfl, ?_⟩
    · simp only [hpm, Bool.false_eq_true, ↓reduceIte]
      show _ = _
      rw [hnext, hbase]
    · intro _
      refine ⟨?_, hisize hpm⟩
      rw [hitem, ← hbase, Function.update_same]
    · simp [hcount]
    · simp [slotsBelow]
    · intro _ a ha; simp at ha
  | true =>
    simp only [linkItems, hpm, ↓reduceIte] at hitem hnext
    obtain ⟨m, hm⟩ : ∃ m, g.cap = m + 1 := ⟨g.cap - 1, by omega⟩
    have hlt : g.slot (0 + m) < plat.size := (slot_bounds hv (by omega)).2
    rw [hbase] at hitem hnext
    rw [hm, Nat.add_sub_cancel] at hitem hnext
    obtain ⟨s1, s2, s3⟩ := premapLoop_spec plat hs m 0 (Function.update mem (g.slot 0) 0) hlt
    rw [Nat.zero_add] at s1
    refine ⟨(slotsBelow g (m + 1)).reverse, [], g.cap, Nat.le_refl _, fun _ => rfl, ?_, ?_, ?_,
      ?_, rfl, ?_⟩
    · simp only [hpm, ↓reduceIte]
      rw [hnext, s1, hitem]
      refine chain_down _ g m ?_ ?_
      · intro i h1 h2
        exact s2 i h1 (by omega)
      · rw [s3 _ (fun i h1 _ => Nat.ne_of_lt (slot_lt_slot hs h1)), Function.update_same]
    · intro hx; simp [hpm] at hx
    · rw [hcount, hm]; simp [slotsBelow]
    · rw [hm, List.append_nil]
      exact List.reverse_perm _
    · intro _ a ha; simp at ha

theorem MemPoolCreate_success {cfg : Config} {plat : Platform} {pvPortMalloc : Nat → Nat}
    {ItemSize ItemCount : Nat} {h0 h : Heap} {p : Nat}
    (heq : MemPoolCreate cfg plat pvPortMalloc ItemSize ItemCount h0 = (p, h)) (hp : p ≠ 0) :
    ItemSize ≠ 0 ∧ ItemCount ≠ 0 ∧
    p = pvPortMalloc ((MEMPOOL_ALIGN plat plat.sizeofMemPool +
      ItemCount * itemStride plat ItemSize) % plat.size) ∧
    h.item = (linkItems cfg plat (itemStride plat ItemSize) ItemCount
      ((p + MEMPOOL_ALIGN plat plat.sizeofMemPool) % plat.size) h0.item).2 ∧
    h.pool = Function.update h0.pool p
      { next := (linkItems cfg plat (itemStride plat ItemSize) ItemCount
          ((p + MEMPOOL_ALIGN plat plat.sizeofMemPool) % plat.size) h0.item).1
        count := ItemCount
        isize := if cfg.premap = true then 0 else itemStride plat ItemSize
        allocated := true } := by
  by_cases h1 : ItemSize = 0 ∨ ItemCount = 0
  · simp only [MemPoolCreate, h1, ↓reduceIte, Prod.mk.injEq] at heq
    exact absurd heq.1.symm hp
  · by_cases h2 : pvPortMalloc ((MEMPOOL_ALIGN plat plat.sizeofMemPool +
        ItemCount * itemStride plat ItemSize) % plat.size) = 0
    · simp only [MemPoolCreate, h1, h2, ↓reduceIte, Prod.mk.injEq] at heq
      exact absurd heq.1.symm hp
    · simp only [MemPoolCreate, h1, h2, ↓reduceIte, Prod.mk.injEq] at heq
      obtain ⟨hp1, hh⟩ := heq
      subst hh
      subst hp1
      exact ⟨fun hx => h1 (Or.inl hx), fun hx => h1 (Or.inr hx), rfl, rfl, rfl⟩

theorem MemPoolCreateStatic_success {cfg : Config} {plat : Platform}
    {ItemSize ItemCount Buffer BufferSize MemPoolBuffer : Nat} {h0 h : Heap} {p : Nat}
    (heq : MemPoolCreateStatic cfg plat ItemSize ItemCount Buffer BufferSize MemPoolBuffer h0
      = some (p, h)) (hp : p ≠ 0) :
    p = MemPoolBuffer ∧ ItemSize ≠ 0 ∧ Buffer ≠ 0 ∧
    staticCount plat ItemSize ItemCount Buffer BufferSize ≠ 0 ∧
    ¬ usableSize plat Buffer BufferSize <
      (staticCount plat ItemSize ItemCount Buffer BufferSize * itemStride plat ItemSize)
        % plat.size ∧
    h.item = (linkItems cfg plat (itemStride plat ItemSize)
      (staticCount plat ItemSize ItemCount Buffer BufferSize) (MEMPOOL_ALIGN plat Buffer)
      h0.item).2 ∧
    h.pool = Function.update h0.pool p
      { next := (linkItems cfg plat (itemStride plat ItemSize)
          (staticCount plat ItemSize ItemCount Buffer BufferSize) (MEMPOOL_ALIGN plat Buffer)
          h0.item).1
        count := staticCount plat ItemSize ItemCount Buffer BufferSize
        isize := if cfg.premap = true then 0 else itemStride plat ItemSize
        allocated := false } := by
  by_cases h1 : MemPoolBuffer = 0
  · simp [MemPoolCreateStatic, h1] at heq
  by_cases h2 : ItemSize = 0 ∨ Buffer = 0
  · simp only [MemPoolCreateStatic, h1, h2, ↓reduceIte, Option.some.injEq, Prod.mk.injEq] at heq
    exact absurd heq.1.symm hp
  by_cases h3 : ItemCount = 0 ∧ itemStride plat ItemSize = 0
  · simp only [MemPoolCreateStatic, h1, h2, h3, ↓reduceIte] at heq
    simp at heq
  by_cases h4 : staticCount plat ItemSize ItemCount Buffer BufferSize = 0 ∨
      usableSize plat Buffer BufferSize <
        (staticCount plat ItemSize ItemCount Buffer BufferSize * itemStride plat ItemSize)
          % plat.size
  · simp only [MemPoolCreateStatic, h1, h2, h3, h4, ↓reduceIte, Option.some.injEq,
      Prod.mk.injEq] at heq
    exact absurd heq.1.symm hp
  · simp only [MemPoolCreateStatic, h1, h2, h3, h4, ↓reduceIte, Option.some.injEq,
      Prod.mk.injEq] at heq
    obtain ⟨hp1, hh⟩ := heq
    subst hh
    subst hp1
    exact ⟨rfl, fun hx => h2 (Or.inl hx), fun hx => h2 (Or.inr hx),
      fun hx => h4 (Or.inl hx), fun hx => h4 (Or.inr hx), rfl, rfl⟩

theorem inv_created {cfg : Config} {plat : Platform} {g : Layout} {p : Nat} {h : Heap}
    (hc : Created cfg plat p h g) (hv : g.Valid plat) : Inv cfg plat g p h [] := by
  cases hc with
  | dynamic pvPortMalloc ItemSize ItemCount h0 heq hp =>
    obtain ⟨_, hcnt, _, hitem, hpool⟩ := MemPoolCreate_success heq hp
    refine linkItems_inv hv (Nat.pos_of_ne_zero hcnt) h0.item hitem ?_ ?_ ?_
    · rw [hpool, Function.update_same]
    · rw [hpool, Function.update_same]
    · intro hpm; rw [hpool, Function.update_same]; simp [hpm]
  | static ItemSize ItemCount Buffer BufferSize MemPoolBuffer h0 heq hp =>
    obtain ⟨_, _, _, hcnt, _, hitem, hpool⟩ := MemPoolCreateStatic_success heq hp
    have hcount : (h.pool p).count = staticCount plat ItemSize ItemCount Buffer BufferSize := by
      rw [hpool, Function.update_same]
    rw [hcount] at hv ⊢
    refine linkItems_inv hv (Nat.pos_of_ne_zero hcnt) h0.item hitem ?_ ?_ ?_
    · rw [hpool, Function.update_same]
    · rw [hpool, Function.update_same]
    · intro hpm; rw [hpool, Function.update_same]; simp [hpm]

theorem inv_reachable {cfg : Config} {plat : Platform} {g : Layout} {p : Nat} {h0 h : Heap}
    {live : List Nat} (hc : Created cfg plat p h0 g) (hv : g.Valid plat)
    (hr : Reachable cfg plat g p h0 h live) : Inv cfg plat g p h live := by
  have hp : p ≠ 0 := by
    cases hc with
    | dynamic _ _ _ _ _ hp => exact hp
    | static _ _ _ _ _ _ _ hp => exact hp
  induction hr with
  | init => exact inv_created hc hv
  | @alloc h h1 live ptr _ heq hptr ih =>
    by_cases hcz : (h.pool p).count = 0
    · rw [MemPoolAlloc_of_empty cfg plat hp hcz] at heq
      simp only [Option.some.injEq, Prod.mk.injEq] at heq
      exact absurd heq.1.symm hptr
    · obtain ⟨q, h2, h3, _, _, _, h7⟩ := inv_alloc hv hp ih hcz
      rw [h3] at heq
      simp only [Option.some.injEq, Prod.mk.injEq] at heq
      rw [← heq.1, ← heq.2]
      exact h7
  | @allocNull h h1 live _ heq ih =>
    by_cases hcz : (h.pool p).count = 0
    · rw [MemPoolAlloc_of_empty cfg plat hp hcz] at heq
      simp only [Option.some.injEq, Prod.mk.injEq] at heq
      rw [← heq.2]
      exact ih
    · obtain ⟨q, h2, h3, h4, _, _, _⟩ := inv_alloc hv hp ih hcz
      rw [h3] at heq
      simp only [Option.some.injEq, Prod.mk.injEq] at heq
      exact absurd heq.1 h4
  | @free h h1 live ptr _ hmem heq ih =>
    obtain ⟨h2, _, _, _, _, _, h7⟩ := inv_free hv hp ih hmem
    rw [h2] at heq
    simp only [Option.some.injEq] at heq
    rw [← heq]
    exact h7
  | @freePtr h h1 live ptr _ hmem heq ih =>
    obtain ⟨_, h3, _, hp0, _, _, h7⟩ := inv_free hv hp ih hmem
    cases hfp : cfg.freeptr with
    | true =>
      rw [(h3 hfp).1] at heq
      simp only [Option.some.injEq] at heq
      rw [← heq]
      exact h7
    | false =>
      simp [MemPoolFreePtr, hfp, hp0] at heq
  | @other h h1 live _ hpool hitem ih => exact inv_other ih hpool hitem
theorem allocMany_inv {cfg : Config} {plat : Platform} {g : Layout} {p : Nat}
    (hv : g.Valid plat) (hp : p ≠ 0) :
    ∀ (n : Nat) (h : Heap) (live : List Nat), Inv cfg plat g p h live →
      n ≤ (h.pool p).count →
      ∃ ptrs h1, allocMany cfg plat p n h = some (ptrs, h1) ∧ ptrs.length = n ∧
        ptrs.Nodup ∧ (∀ q ∈ ptrs, q ≠ 0 ∧ q ∉ live) ∧
        (h1.pool p).count + n = (h.pool p).count ∧
        Inv cfg plat g p h1 (ptrs.reverse ++ live) := by
  intro n
  induction n with
  | zero =>
    intro h live hinv _
    exact ⟨[], h, rfl, rfl, List.nodup_nil, fun q hq => by simp at hq, rfl, by simpa using hinv⟩
  | succ n ih =>
    intro h live hinv hle
    obtain ⟨ptr, h1, heq, hne, hnl, hcnt, hinv1⟩ := inv_alloc hv hp hinv (by omega)
    obtain ⟨ptrs, h2, heq2, hlen, hnd, hall, hcnt2, hinv2⟩ := ih h1 (ptr :: live) hinv1 (by omega)
    refine ⟨ptr :: ptrs, h2, ?_, by simp [hlen], ?_, ?_, by omega, ?_⟩
    · simp only [allocMany, heq, heq2]
    · refine List.nodup_cons.mpr ⟨fun hx => ?_, hnd⟩
      exact (hall ptr hx).2 (List.mem_cons_self _ _)
    · intro q hq
      rcases List.mem_cons.mp hq with hqp | hqs
      · rw [hqp]; exact ⟨hne, hnl⟩
      · exact ⟨(hall q hqs).1, fun hx => (hall q hqs).2 (List.mem_cons_of_mem _ hx)⟩
    · simpa using hinv2
theorem MemPoolCreate_granted (cfg : Config) (plat : Platform) (pvPortMalloc : Nat → Nat)
    {ItemSize ItemCount : Nat} (h0 : Heap) (hs : ItemSize ≠ 0) (hn : ItemCount ≠ 0)
    (hm : pvPortMalloc ((MEMPOOL_ALIGN plat plat.sizeofMemPool +
      ItemCount * itemStride plat ItemSize) % plat.size) ≠ 0) :
    (MemPoolCreate cfg plat pvPortMalloc ItemSize ItemCount h0).1 =
      pvPortMalloc ((MEMPOOL_ALIGN plat plat.sizeofMemPool +
        ItemCount * itemStride plat ItemSize) % plat.size) ∧
    (((MemPoolCreate cfg plat pvPortMalloc ItemSize ItemCount h0).2).pool
      (pvPortMalloc ((MEMPOOL_ALIGN plat plat.sizeofMemPool +
        ItemCount * itemStride plat ItemSize) % plat.size))).count = ItemCount := by
  simp [MemPoolCreate, hs, hn, hm]

theorem eq_some_heapOf {r : Option (Nat × Heap)} {p : Nat}
    (hr : r.map Prod.fst = some p) : r = some (p, heapOf r) := by
  cases r with
  | none => simp at hr
  | some x =>
    simp only [Option.map_some', Option.some.injEq] at hr
    simp only [heapOf, ← hr]

theorem MemPoolCreateStatic_accepted (cfg : Config) (plat : Platform)
    {ItemSize ItemCount Buffer BufferSize MemPoolBuffer : Nat} (h0 : Heap)
    (h1 : MemPoolBuffer ≠ 0) (h2 : ItemSize ≠ 0) (h3 : Buffer ≠ 0)
    (h4 : itemStride plat ItemSize ≠ 0)
    (h5 : staticCount plat ItemSize ItemCount Buffer BufferSize ≠ 0)
    (h6 : ¬ usableSize plat Buffer BufferSize <
      (staticCount plat ItemSize ItemCount Buffer BufferSize * itemStride plat ItemSize)
        % plat.size) :
    (MemPoolCreateStatic cfg plat ItemSize ItemCount Buffer BufferSize MemPoolBuffer h0).map
        Prod.fst = some MemPoolBuffer ∧
      ((heapOf (MemPoolCreateStatic cfg plat ItemSize ItemCount Buffer BufferSize
        MemPoolBuffer h0)).pool MemPoolBuffer).count
        = staticCount plat ItemSize ItemCount Buffer BufferSize := by
  simp [MemPoolCreateStatic, heapOf, h1, h2, h3, h4, h5, h6]
/-! ## The alignment macro -/

/-- Clearing the low bits with the negated mask: for a value below `2 ^ w`,
`y & ~(2 ^ k - 1)` is `y` rounded down to a multiple of `2 ^ k`. -/
theorem and_not_mask {w k y : Nat} (hk : k ≤ w) (hy : y < 2 ^ w) :
    y &&& (2 ^ w - 1 - (2 ^ k - 1)) = y - y % 2 ^ k := by
  have hkw : 2 ^ k ≤ 2 ^ w := Nat.pow_le_pow_right (by decide) hk
  have hpos : 0 < 2 ^ k := Nat.two_pow_pos k
  have hm : 2 ^ w - 1 - (2 ^ k - 1) = 2 ^ w - ((2 ^ k - 1) + 1) := by omega
  have hr : y - y % 2 ^ k = 2 ^ k * (y / 2 ^ k) := by
    have := Nat.div_add_mod y (2 ^ k)
    omega
  rw [hm, hr]
  apply Nat.eq_of_testBit_eq
  intro i
  rw [Nat.testBit_and, Nat.testBit_two_pow_sub_succ (by omega), Nat.testBit_two_pow_sub_one,
    Nat.testBit_mul_pow_two, ← Nat.shiftRight_eq_div_pow, Nat.testBit_shiftRight]
  by_cases hik : i < k
  · simp [hik, Nat.not_le_of_lt hik]
  · have hki : k ≤ i := Nat.le_of_not_lt hik
    have hadd : k + (i - k) = i := by omega
    by_cases hiw : i < w
    · simp [hik, hki, hiw, hadd]
    · have hyi : y < 2 ^ i :=
        Nat.lt_of_lt_of_le hy (Nat.pow_le_pow_right (by decide) (Nat.le_of_not_lt hiw))
      simp [hik, hki, hiw, hadd, Nat.testBit_lt_two_pow hyi]

/-- On a well-formed port `MEMPOOL_ALIGN(x)` is `x + portBYTE_ALIGNMENT - 1`, reduced to
a `portPOINTER_SIZE_TYPE`, rounded down to a multiple of the alignment. -/
theorem MEMPOOL_ALIGN_eq {plat : Platform} (hwf : plat.WF) (x : Nat) :
    MEMPOOL_ALIGN plat x =
      (x + plat.portBYTE_ALIGNMENT - 1) % plat.size
        - ((x + plat.portBYTE_ALIGNMENT - 1) % plat.size) % plat.portBYTE_ALIGNMENT := by
  obtain ⟨k, hk, ha, hm⟩ := hwf
  unfold MEMPOOL_ALIGN
  rw [hm, ha]
  exact and_not_mask (Nat.le_of_lt hk) (Nat.mod_lt _ (Nat.two_pow_pos _))

/-- Without wrap-around `MEMPOOL_ALIGN(x)` is the least multiple of the alignment that
is at least `x`. -/
theorem MEMPOOL_ALIGN_spec {plat : Platform} (hwf : plat.WF) {x : Nat}
    (hx : x + plat.portBYTE_ALIGNMENT - 1 < plat.size) :
    plat.portBYTE_ALIGNMENT ∣ MEMPOOL_ALIGN plat x ∧ x ≤ MEMPOOL_ALIGN plat x ∧
      MEMPOOL_ALIGN plat x < x + plat.portBYTE_ALIGNMENT := by
  have hpos : 0 < plat.portBYTE_ALIGNMENT := by
    obtain ⟨k, _, ha, _⟩ := hwf
    rw [ha]; exact Nat.two_pow_pos k
  rw [MEMPOOL_ALIGN_eq hwf, Nat.mod_eq_of_lt hx]
  have h1 := Nat.div_add_mod (x + plat.portBYTE_ALIGNMENT - 1) plat.portBYTE_ALIGNMENT
  have h2 := Nat.mod_lt (x + plat.portBYTE_ALIGNMENT - 1) hpos
  refine ⟨⟨(x + plat.portBYTE_ALIGNMENT - 1) / plat.portBYTE_ALIGNMENT, by omega⟩, by omega,
    by omega⟩
/-! ## When the slots of a created pool exist -/

/-- The stride is exact and longer than the item header when neither the rounding of the
sizes nor their sum wraps. -/
theorem itemStride_exact {plat : Platform} (hwf : plat.WF) {ItemSize : Nat}
    (hs : 0 < ItemSize) (hh : plat.sizeofMemItem + plat.portBYTE_ALIGNMENT - 1 < plat.size)
    (hsum : plat.sizeofMemItem + ItemSize + 2 * plat.portBYTE_ALIGNMENT ≤ plat.size) :
    itemStride plat ItemSize = hdrSize plat + MEMPOOL_ALIGN plat ItemSize ∧
      hdrSize plat < itemStride plat ItemSize := by
  have h1 := MEMPOOL_ALIGN_spec hwf hh
  have h2 := MEMPOOL_ALIGN_spec hwf (x := ItemSize) (by omega)
  unfold itemStride hdrSize
  rw [Nat.mod_eq_of_lt (by omega)]
  exact ⟨rfl, by omega⟩

/-- A static pool that `MemPoolCreateStatic` accepts has slots that exist, when the
buffer itself exists (it lies below the top of the address space and is at least as
long as the alignment padding) and neither the stride nor, for an explicit count, the
product of count and stride wraps. -/
theorem static_layout_valid {cfg : Config} {plat : Platform}
    {ItemSize ItemCount Buffer BufferSize MemPoolBuffer : Nat} {h0 h : Heap} {p : Nat}
    (hwf : plat.WF)
    (heq : MemPoolCreateStatic cfg plat ItemSize ItemCount Buffer BufferSize MemPoolBuffer h0
      = some (p, h)) (hp : p ≠ 0)
    (hh : plat.sizeofMemItem + plat.portBYTE_ALIGNMENT - 1 < plat.size)
    (hsum : plat.sizeofMemItem + ItemSize + 2 * plat.portBYTE_ALIGNMENT ≤ plat.size)
    (hbuf : Buffer + BufferSize + plat.portBYTE_ALIGNMENT ≤ plat.size)
    (hpad : alignPadding plat Buffer ≤ BufferSize)
    (hprod : ItemCount * itemStride plat ItemSize < plat.size) :
    Layout.Valid plat
      { base := MEMPOOL_ALIGN plat Buffer
        stride := itemStride plat ItemSize
        cap := (h.pool p).count } := by
  obtain ⟨_, hIS, hB, hcnt, hfit, _, hpool⟩ := MemPoolCreateStatic_success heq hp
  have hcount : (h.pool p).count = staticCount plat ItemSize ItemCount Buffer BufferSize := by
    rw [hpool, Function.update_same]
  obtain ⟨hstr, hlt⟩ := itemStride_exact hwf (Nat.pos_of_ne_zero hIS) hh hsum
  have hal := MEMPOOL_ALIGN_spec hwf (x := Buffer) (by omega)
  have hpadeq : alignPadding plat Buffer = MEMPOOL_ALIGN plat Buffer - Buffer := by
    unfold alignPadding
    have : MEMPOOL_ALIGN plat Buffer + plat.size - Buffer
        = (MEMPOOL_ALIGN plat Buffer - Buffer) + plat.size := by omega
    rw [this, Nat.add_mod_right]
    exact Nat.mod_eq_of_lt (by omega)
  have hus : usableSize plat Buffer BufferSize = BufferSize - alignPadding plat Buffer := by
    unfold usableSize
    have : BufferSize + plat.size - alignPadding plat Buffer
        = (BufferSize - alignPadding plat Buffer) + plat.size := by omega
    rw [this, Nat.add_mod_right]
    exact Nat.mod_eq_of_lt (by omega)
  have hcs : staticCount plat ItemSize ItemCount Buffer BufferSize * itemStride plat ItemSize
      ≤ usableSize plat Buffer BufferSize := by
    by_cases hz : ItemCount = 0
    · simp only [staticCount, hz, ↓reduceIte]
      exact Nat.div_mul_le_self _ _
    · have hsc : staticCount plat ItemSize ItemCount Buffer BufferSize = ItemCount := by
        simp [staticCount, hz]
      rw [hsc] at hfit ⊢
      rw [Nat.mod_eq_of_lt hprod] at hfit
      omega
  refine ⟨?_, ?_, Nat.le_of_lt hlt, ?_⟩
  · show 0 < MEMPOOL_ALIGN plat Buffer
    omega
  · show 0 < itemStride plat ItemSize
    omega
  · show MEMPOOL_ALIGN plat Buffer + (h.pool p).count * itemStride plat ItemSize < plat.size
    rw [hcount]
    have hapos : 0 < plat.portBYTE_ALIGNMENT := by
      obtain ⟨k, _, ha, _⟩ := hwf
      rw [ha]; exact Nat.two_pow_pos k
    omega

/-- A dynamic pool has slots that exist when the block of the allocator holds the pool
header and the items without any wrap-around. -/
theorem dynamic_layout_valid {cfg : Config} {plat : Platform} {pvPortMalloc : Nat → Nat}
    {ItemSize ItemCount : Nat} {h0 h : Heap} {p : Nat} (hwf : plat.WF)
    (heq : MemPoolCreate cfg plat pvPortMalloc ItemSize ItemCount h0 = (p, h)) (hp : p ≠ 0)
    (hh : plat.sizeofMemItem + plat.portBYTE_ALIGNMENT - 1 < plat.size)
    (hsum : plat.sizeofMemItem + ItemSize + 2 * plat.portBYTE_ALIGNMENT ≤ plat.size)
    (hblock : p + MEMPOOL_ALIGN plat plat.sizeofMemPool
      + ItemCount * (hdrSize plat + MEMPOOL_ALIGN plat ItemSize) < plat.size) :
    Layout.Valid plat
      { base := (p + MEMPOOL_ALIGN plat plat.sizeofMemPool) % plat.size
        stride := itemStride plat ItemSize
        cap := ItemCount } := by
  obtain ⟨hIS, _, _, _, _⟩ := MemPoolCreate_success heq hp
  obtain ⟨hstr, hlt⟩ := itemStride_exact hwf (Nat.pos_of_ne_zero hIS) hh hsum
  have hbase : (p + MEMPOOL_ALIGN plat plat.sizeofMemPool) % plat.size
      = p + MEMPOOL_ALIGN plat plat.sizeofMemPool := Nat.mod_eq_of_lt (by omega)
  refine ⟨?_, ?_, Nat.le_of_lt hlt, ?_⟩
  · show 0 < (p + MEMPOOL_ALIGN plat plat.sizeofMemPool) % plat.size
    rw [hbase]; omega
  · show 0 < itemStride plat ItemSize
    omega
  · show (p + MEMPOOL_ALIGN plat plat.sizeofMemPool) % plat.size
      + ItemCount * itemStride plat ItemSize < plat.size
    rw [hbase, hstr]
    exact hblock

/-! ## What `MemPoolAvailable` reports -/

/-- For a count within `IntExact` and within `size_t` the detour through `int` is the
identity. -/
theorem ofInt_toInt {plat : Platform} {n c : Nat} (hex : IntExact plat n) (hcn : c ≤ n)
    (h2 : c < plat.size) : ofInt plat (toInt plat c) = c := by
  have hsmall : c % 2 ^ plat.intBits < 2 ^ (plat.intBits - 1) →
      c % 2 ^ plat.intBits = c → ofInt plat (toInt plat c) = c := by
    intro h1 hmod
    unfold ofInt toInt
    rw [if_pos h1, hmod, ← Int.natCast_mod, Int.toNat_ofNat]
    exact Nat.mod_eq_of_lt h2
  rcases hex with h1 | hw
  · have hle : 2 ^ (plat.intBits - 1) ≤ 2 ^ plat.intBits :=
      Nat.pow_le_pow_right (by decide) (Nat.sub_le _ _)
    have hmod : c % 2 ^ plat.intBits = c := Nat.mod_eq_of_lt (by omega)
    exact hsmall (by rw [hmod]; omega) hmod
  · have hmod : c % 2 ^ plat.intBits = c := by
      rw [hw]; exact Nat.mod_eq_of_lt h2
    by_cases h1 : c % 2 ^ plat.intBits < 2 ^ (plat.intBits - 1)
    · exact hsmall h1 hmod
    · unfold ofInt toInt
      rw [if_neg h1, hmod, hw]
      show (((c : Int) - ((plat.size : Nat) : Int)) % ((plat.size : Nat) : Int)).toNat = c
      rw [Int.emod_sub_cancel, ← Int.natCast_mod, Int.toNat_ofNat]
      exact Nat.mod_eq_of_lt h2

theorem cap_lt_size {plat : Platform} {g : Layout} (hv : g.Valid plat) :
    g.cap < plat.size := by
  obtain ⟨_, hs, _, hend⟩ := hv
  have : g.cap * 1 ≤ g.cap * g.stride := Nat.mul_le_mul_left _ hs
  omega

/-- The remaining count never exceeds the capacity. -/
theorem Inv.count_le {cfg : Config} {plat : Platform} {g : Layout} {p : Nat} {h : Heap}
    {live : List Nat} (hinv : Inv cfg plat g p h live) :
    (h.pool p).count + live.length = g.cap := by
  obtain ⟨fl, li, v, hvle, _, _, _, hcount, hperm, hlive, _⟩ := hinv
  have := hperm.length_eq
  simp only [slotsBelow, List.length_append, List.length_map, List.length_range] at this
  rw [hcount, hlive, List.length_map]
  omega

theorem MemPoolAvailable_eq {cfg : Config} {plat : Platform} {g : Layout} {p : Nat}
    {h : Heap} {live : List Nat} (hv : g.Valid plat) (hp : p ≠ 0)
    (hint : IntExact plat g.cap) (hinv : Inv cfg plat g p h live) :
    MemPoolAvailable plat p h = (h.pool p).count := by
  have hle := hinv.count_le
  have hcap := cap_lt_size hv
  unfold MemPoolAvailable
  rw [if_neg hp]
  exact ofInt_toInt hint (by omega) (by omega)

theorem Created.handle_ne_zero {cfg : Config} {plat : Platform} {g : Layout} {p : Nat}
    {h : Heap} (hc : Created cfg plat p h g) : p ≠ 0 := by
  cases hc with
  | dynamic _ _ _ _ _ hp => exact hp
  | static _ _ _ _ _ _ _ hp => exact hp

/-! ## The claims -/

/-- Allocation and the remaining count, on slots that exist. In every state reachable
from `MemPoolCreate` or `MemPoolCreateStatic` by allocations and by releases of
allocated blocks, for a pool built on slots that exist (`Layout.Valid`): when
the remaining count is `N > 0`, `MemPoolAlloc` returns a non-NULL pointer without
asserting and leaves the count at `N - 1`; when it is `0`, `MemPoolAlloc` returns `NULL`
and the memory is unchanged. The same holds with `N` read through `MemPoolAvailable`,
before and after the call, when the capacity is at most `INT_MAX` or `int` is as wide as
`size_t`. -/
theorem alloc_available {cfg : Config} {plat : Platform} {g : Layout} {p : Nat}
    {h0 h : Heap} {live : List Nat} (hc : Created cfg plat p h0 g) (hv : g.Valid plat)
    (hr : Reachable cfg plat g p h0 h live) :
    ((0 < (h.pool p).count →
        ∃ ptr h1, MemPoolAlloc cfg plat p h = some (ptr, h1) ∧ ptr ≠ 0 ∧
          (h1.pool p).count = (h.pool p).count - 1) ∧
      ((h.pool p).count = 0 → MemPoolAlloc cfg plat p h = some (0, h))) ∧
    (IntExact plat g.cap →
      (0 < MemPoolAvailable plat p h →
        ∃ ptr h1, MemPoolAlloc cfg plat p h = some (ptr, h1) ∧ ptr ≠ 0 ∧
          MemPoolAvailable plat p h1 = MemPoolAvailable plat p h - 1) ∧
      (MemPoolAvailable plat p h = 0 → MemPoolAlloc cfg plat p h = some (0, h))) := by
  have hp := hc.handle_ne_zero
  have hinv := inv_reachable hc hv hr
  refine ⟨⟨fun hpos => ?_, fun hz => MemPoolAlloc_of_empty cfg plat hp hz⟩, fun hint => ?_⟩
  · obtain ⟨ptr, h1, heq, hne, _, hcnt, _⟩ := inv_alloc hv hp hinv (by omega)
    exact ⟨ptr, h1, heq, hne, by omega⟩
  · rw [MemPoolAvailable_eq hv hp hint hinv]
    refine ⟨fun hpos => ?_, fun hz => MemPoolAlloc_of_empty cfg plat hp hz⟩
    obtain ⟨ptr, h1, heq, hne, _, hcnt, hinv1⟩ := inv_alloc hv hp hinv (by omega)
    refine ⟨ptr, h1, heq, hne, ?_⟩
    rw [MemPoolAvailable_eq hv hp hint hinv1]
    omega

/-- Instance of `alloc_available`: the two-slot pool of `demoHeap0` after one allocation. -/
theorem alloc_available_witness :
    ((0 < (demoHeap1.pool 8192).count →
        ∃ ptr h1, MemPoolAlloc defaultConfig ilp32 8192 demoHeap1 = some (ptr, h1) ∧ ptr ≠ 0 ∧
          (h1.pool 8192).count = (demoHeap1.pool 8192).count - 1) ∧
      ((demoHeap1.pool 8192).count = 0 →
        MemPoolAlloc defaultConfig ilp32 8192 demoHeap1 = some (0, demoHeap1))) ∧
    (IntExact ilp32 demoLayout.cap →
      (0 < MemPoolAvailable ilp32 8192 demoHeap1 →
        ∃ ptr h1, MemPoolAlloc defaultConfig ilp32 8192 demoHeap1 = some (ptr, h1) ∧ ptr ≠ 0 ∧
          MemPoolAvailable ilp32 8192 h1 = MemPoolAvailable ilp32 8192 demoHeap1 - 1) ∧
      (MemPoolAvailable ilp32 8192 demoHeap1 = 0 →
        MemPoolAlloc defaultConfig ilp32 8192 demoHeap1 = some (0, demoHeap1))) :=
  @alloc_available defaultConfig ilp32 demoLayout 8192 demoHeap0 demoHeap1 [4120]
    (Created.static 4 2 4096 64 8192 emptyHeap rfl (by decide))
    ⟨by decide, by decide, by decide, by decide⟩
    (Reachable.alloc Reachable.init (rfl : MemPoolAlloc defaultConfig ilp32 8192 demoHeap0
      = some (4120, demoHeap1)) (by decide))

/-- Release and the remaining count, on slots that exist. In every reachable state of a
pool built on slots that exist (`Layout.Valid`), `MemPoolFree` of
any allocated block returns normally and raises the remaining count by exactly one, and
an allocation followed by the release of the block it returned restores the count.
The same holds for what `MemPoolAvailable` reports, when the capacity is at most
`INT_MAX` or `int` is as wide as `size_t`. -/
theorem free_available {cfg : Config} {plat : Platform} {g : Layout} {p : Nat}
    {h0 h : Heap} {live : List Nat} (hc : Created cfg plat p h0 g) (hv : g.Valid plat)
    (hr : Reachable cfg plat g p h0 h live) :
    ((∀ ptr ∈ live, ∃ h1, MemPoolFree cfg plat p ptr h = some h1 ∧
        (h1.pool p).count = (h.pool p).count + 1) ∧
      (∀ ptr h1, MemPoolAlloc cfg plat p h = some (ptr, h1) → ptr ≠ 0 →
        ∃ h2, MemPoolFree cfg plat p ptr h1 = some h2 ∧
          (h2.pool p).count = (h.pool p).count)) ∧
    (IntExact plat g.cap →
      (∀ ptr ∈ live, ∃ h1, MemPoolFree cfg plat p ptr h = some h1 ∧
        MemPoolAvailable plat p h1 = MemPoolAvailable plat p h + 1) ∧
      (∀ ptr h1, MemPoolAlloc cfg plat p h = some (ptr, h1) → ptr ≠ 0 →
        ∃ h2, MemPoolFree cfg plat p ptr h1 = some h2 ∧
          MemPoolAvailable plat p h2 = MemPoolAvailable plat p h)) := by
  have hp := hc.handle_ne_zero
  have hinv := inv_reachable hc hv hr
  -- a release in any state that satisfies the invariant
  have key : ∀ {h : Heap} {live : List Nat}, Inv cfg plat g p h live → ∀ ptr ∈ live,
      ∃ h1, MemPoolFree cfg plat p ptr h = some h1 ∧
        (h1.pool p).count = (h.pool p).count + 1 ∧ Inv cfg plat g p h1 (live.erase ptr) := by
    intro h live hinv ptr hmem
    obtain ⟨heq, _, hcnt, _, _, _, hinv1⟩ := inv_free hv hp hinv hmem
    exact ⟨_, heq, hcnt, hinv1⟩
  -- an allocation followed by the release of its block
  have pair : ∀ ptr h1, MemPoolAlloc cfg plat p h = some (ptr, h1) → ptr ≠ 0 →
      ∃ h2, MemPoolFree cfg plat p ptr h1 = some h2 ∧
        (h2.pool p).count = (h.pool p).count ∧ Inv cfg plat g p h2 live := by
    intro ptr h1 heq hne
    by_cases hcz : (h.pool p).count = 0
    · rw [MemPoolAlloc_of_empty cfg plat hp hcz] at heq
      simp only [Option.some.injEq, Prod.mk.injEq] at heq
      exact absurd heq.1.symm hne
    · obtain ⟨q, h2, h3, _, _, hcnt, hinv1⟩ := inv_alloc hv hp hinv hcz
      rw [h3] at heq
      simp only [Option.some.injEq, Prod.mk.injEq] at heq
      obtain ⟨rfl, rfl⟩ := heq
      obtain ⟨h4, h5, h6, h7⟩ := key hinv1 q (List.mem_cons_self _ _)
      refine ⟨h4, h5, by omega, ?_⟩
      simpa using h7
  refine ⟨⟨fun ptr hmem => ?_, fun ptr h1 heq hne => ?_⟩,
    fun hint => ⟨fun ptr hmem => ?_, fun ptr h1 heq hne => ?_⟩⟩
  · obtain ⟨h1, heq, hcnt, _⟩ := key hinv ptr hmem
    exact ⟨h1, heq, hcnt⟩
  · obtain ⟨h2, heq2, hcnt, _⟩ := pair ptr h1 heq hne
    exact ⟨h2, heq2, hcnt⟩
  · obtain ⟨h1, heq, hcnt, hinv1⟩ := key hinv ptr hmem
    refine ⟨h1, heq, ?_⟩
    rw [MemPoolAvailable_eq hv hp hint hinv1, MemPoolAvailable_eq hv hp hint hinv, hcnt]
  · obtain ⟨h2, heq2, hcnt, hinv2⟩ := pair ptr h1 heq hne
    refine ⟨h2, heq2, ?_⟩
    rw [MemPoolAvailable_eq hv hp hint hinv2, MemPoolAvailable_eq hv hp hint hinv, hcnt]

/-- Instance of `free_available`: the two-slot pool of `demoHeap0` after one allocation. -/
theorem free_available_witness :
    ((∀ ptr ∈ [4120], ∃ h1, MemPoolFree defaultConfig ilp32 8192 ptr demoHeap1 = some h1 ∧
        (h1.pool 8192).count = (demoHeap1.pool 8192).count + 1) ∧
      (∀ ptr h1, MemPoolAlloc defaultConfig ilp32 8192 demoHeap1 = some (ptr, h1) → ptr ≠ 0 →
        ∃ h2, MemPoolFree defaultConfig ilp32 8192 ptr h1 = some h2 ∧
          (h2.pool 8192).count = (demoHeap1.pool 8192).count)) ∧
    (IntExact ilp32 demoLayout.cap →
      (∀ ptr ∈ [4120], ∃ h1, MemPoolFree defaultConfig ilp32 8192 ptr demoHeap1 = some h1 ∧
        MemPoolAvailable ilp32 8192 h1 = MemPoolAvailable ilp32 8192 demoHeap1 + 1) ∧
      (∀ ptr h1, MemPoolAlloc defaultConfig ilp32 8192 demoHeap1 = some (ptr, h1) → ptr ≠ 0 →
        ∃ h2, MemPoolFree defaultConfig ilp32 8192 ptr h1 = some h2 ∧
          MemPoolAvailable ilp32 8192 h2 = MemPoolAvailable ilp32 8192 demoHeap1)) :=
  @free_available defaultConfig ilp32 demoLayout 8192 demoHeap0 demoHeap1 [4120]
    (Created.static 4 2 4096 64 8192 emptyHeap rfl (by decide))
    ⟨by decide, by decide, by decide, by decide⟩
    (Reachable.alloc Reachable.init (rfl : MemPoolAlloc defaultConfig ilp32 8192 demoHeap0
      = some (4120, demoHeap1)) (by decide))

/-- No aliasing of live blocks, for a pool built on slots that exist (`Layout.Valid`,
which asks for a positive stride): in every reachable
state a non-NULL pointer returned by `MemPoolAlloc` differs from every allocated block;
a fresh pool of capacity at least two returns distinct non-NULL pointers on two
consecutive allocations; a fresh pool of capacity `N` returns `N` pairwise distinct
non-NULL pointers and then `NULL`. -/
theorem alloc_no_alias {cfg : Config} {plat : Platform} {g : Layout} {p : Nat}
    {h0 h : Heap} {live : List Nat} (hc : Created cfg plat p h0 g) (hv : g.Valid plat)
    (hr : Reachable cfg plat g p h0 h live) :
    (∀ ptr h1, MemPoolAlloc cfg plat p h = some (ptr, h1) → ptr ≠ 0 → ptr ∉ live) ∧
    (2 ≤ g.cap → ∃ q1 q2 h1 h2, MemPoolAlloc cfg plat p h0 = some (q1, h1) ∧
      MemPoolAlloc cfg plat p h1 = some (q2, h2) ∧ q1 ≠ 0 ∧ q2 ≠ 0 ∧ q1 ≠ q2) ∧
    (∃ ptrs h1, allocMany cfg plat p g.cap h0 = some (ptrs, h1) ∧ ptrs.length = g.cap ∧
      ptrs.Nodup ∧ (∀ q ∈ ptrs, q ≠ 0) ∧ MemPoolAlloc cfg plat p h1 = some (0, h1)) := by
  have hp := hc.handle_ne_zero
  have hinv := inv_reachable hc hv hr
  have hinv0 := inv_created hc hv
  have hcnt0 : (h0.pool p).count = g.cap := by simpa using hinv0.count_le
  refine ⟨?_, ?_, ?_⟩
  · intro ptr h1 heq hne
    by_cases hcz : (h.pool p).count = 0
    · rw [MemPoolAlloc_of_empty cfg plat hp hcz] at heq
      simp only [Option.some.injEq, Prod.mk.injEq] at heq
      exact absurd heq.1.symm hne
    · obtain ⟨q, h2, h3, _, hnl, _, _⟩ := inv_alloc hv hp hinv hcz
      rw [h3] at heq
      simp only [Option.some.injEq, Prod.mk.injEq] at heq
      rw [← heq.1]
      exact hnl
  · intro h2cap
    obtain ⟨q1, h1, heq1, hne1, _, hc1, hinv1⟩ := inv_alloc hv hp hinv0 (by omega)
    obtain ⟨q2, h2, heq2, hne2, hnl2, _, _⟩ := inv_alloc hv hp hinv1 (by omega)
    exact ⟨q1, q2, h1, h2, heq1, heq2, hne1, hne2,
      fun hx => hnl2 (hx ▸ List.mem_cons_self _ _)⟩
  · obtain ⟨ptrs, h1, heq, hlen, hnd, hall, hcnt, _⟩ :=
      allocMany_inv hv hp g.cap h0 [] hinv0 (by omega)
    exact ⟨ptrs, h1, heq, hlen, hnd, fun q hq => (hall q hq).1,
      MemPoolAlloc_of_empty cfg plat hp (by omega)⟩

/-- Instance of `alloc_no_alias`: the two-slot pool of `demoHeap0` after one allocation. -/
theorem alloc_no_alias_witness :
    (∀ ptr h1, MemPoolAlloc defaultConfig ilp32 8192 demoHeap1 = some (ptr, h1) → ptr ≠ 0 →
      ptr ∉ [4120]) ∧
    (2 ≤ demoLayout.cap → ∃ q1 q2 h1 h2,
      MemPoolAlloc defaultConfig ilp32 8192 demoHeap0 = some (q1, h1) ∧
      MemPoolAlloc defaultConfig ilp32 8192 h1 = some (q2, h2) ∧ q1 ≠ 0 ∧ q2 ≠ 0 ∧ q1 ≠ q2) ∧
    (∃ ptrs h1, allocMany defaultConfig ilp32 8192 demoLayout.cap demoHeap0 = some (ptrs, h1) ∧
      ptrs.length = demoLayout.cap ∧ ptrs.Nodup ∧ (∀ q ∈ ptrs, q ≠ 0) ∧
      MemPoolAlloc defaultConfig ilp32 8192 h1 = some (0, h1)) :=
  @alloc_no_alias defaultConfig ilp32 demoLayout 8192 demoHeap0 demoHeap1 [4120]
    (Created.static 4 2 4096 64 8192 emptyHeap rfl (by decide))
    ⟨by decide, by decide, by decide, by decide⟩
    (Reachable.alloc Reachable.init (rfl : MemPoolAlloc defaultConfig ilp32 8192 demoHeap0
      = some (4120, demoHeap1)) (by decide))

/-- C4, the code at a failing input (32-bit port, default build):
`MemPoolCreateStatic(1, 1, (void *)0x1001, 0, &pool)`. Seven bytes are skipped to align
the buffer, so the usable size is `0 - 7` as an integer, below the `1 * 16` bytes of the
one item, and yet the call returns the handle, with the count set to one. -/
theorem createStatic_accepts_unfit :
    ((0 : Nat) : Int) - ((MEMPOOL_ALIGN ilp32 4097 - 4097 : Nat) : Int)
      < ((1 * (hdrSize ilp32 + MEMPOOL_ALIGN ilp32 1) : Nat) : Int) ∧
    (MemPoolCreateStatic defaultConfig ilp32 1 1 4097 0 8192 emptyHeap).map Prod.fst
      = some 8192 ∧
    ((heapOf (MemPoolCreateStatic defaultConfig ilp32 1 1 4097 0 8192 emptyHeap)).pool
      8192).count = 1 := by
  refine ⟨by decide, rfl, rfl⟩

/-- C5, the code at a failing input (64-bit port with a 32-bit `int`, default build):
`MemPoolCreate(1, 2^31)` when the allocator grants the 34359738400 bytes asked for. The
handle is the block of the allocator and the count in the pool is `2^31`, but
`MemPoolAvailable` returns `2^64 - 2^31`, not the `2^31` the pool was created with. -/
theorem available_truncates_count :
    (MemPoolCreate defaultConfig lp64 (fun n => if n = 34359738400 then 4096 else 0) 1
      (2 ^ 31) emptyHeap).1 = 4096 ∧
    (((MemPoolCreate defaultConfig lp64 (fun n => if n = 34359738400 then 4096 else 0) 1
      (2 ^ 31) emptyHeap).2).pool 4096).count = 2 ^ 31 ∧
    MemPoolAvailable lp64 4096
      (MemPoolCreate defaultConfig lp64 (fun n => if n = 34359738400 then 4096 else 0) 1
        (2 ^ 31) emptyHeap).2 = 2 ^ 64 - 2 ^ 31 ∧
    MemPoolAvailable lp64 4096
      (MemPoolCreate defaultConfig lp64 (fun n => if n = 34359738400 then 4096 else 0) 1
        (2 ^ 31) emptyHeap).2 ≠ 2 ^ 31 := by
  have hreq : (MEMPOOL_ALIGN lp64 lp64.sizeofMemPool + 2 ^ 31 * itemStride lp64 1) % lp64.size
      = 34359738400 := by decide
  have hg := @MemPoolCreate_granted defaultConfig lp64
    (fun n => if n = 34359738400 then 4096 else 0) 1 (2 ^ 31) emptyHeap
    (by decide) (by decide) (by rw [hreq]; decide)
  rw [hreq] at hg
  simp only [↓reduceIte] at hg
  have hav : MemPoolAvailable lp64 4096
      (MemPoolCreate defaultConfig lp64 (fun n => if n = 34359738400 then 4096 else 0) 1
        (2 ^ 31) emptyHeap).2 = 2 ^ 64 - 2 ^ 31 := by
    unfold MemPoolAvailable
    rw [if_neg (by decide), hg.2]
    decide
  refine ⟨hg.1, hg.2, hav, ?_⟩
  rw [hav]
  decide

/-- Item count of a static pool whose buffer holds the alignment padding. When
`MemPoolCreateStatic` succeeds, the count of the new pool is the explicit `ItemCount`
when that is positive, and, when `ItemCount` is zero and the padding is at most
`BufferSize`, it is the usable size, `BufferSize` minus the alignment padding, divided
by the item stride; `MemPoolAvailable` reports that count when it is at most `INT_MAX` or `int` is as
wide as `size_t`. With `ItemCount` zero and an aligned buffer of exactly `K` strides,
`K` at least one, the pool is created with `K` items and `MemPoolAvailable` reports
`K`, under the same condition on `K`. -/
theorem static_item_count (cfg : Config) (plat : Platform) :
    (∀ ItemSize ItemCount Buffer BufferSize MemPoolBuffer h0 p h,
      MemPoolCreateStatic cfg plat ItemSize ItemCount Buffer BufferSize MemPoolBuffer h0
        = some (p, h) → p ≠ 0 → ItemCount < plat.size → BufferSize < plat.size →
      ((0 < ItemCount → (h.pool p).count = ItemCount) ∧
        (ItemCount = 0 → alignPadding plat Buffer ≤ BufferSize →
          (h.pool p).count
            = (BufferSize - alignPadding plat Buffer) / itemStride plat ItemSize)) ∧
      (IntExact plat (h.pool p).count → MemPoolAvailable plat p h = (h.pool p).count)) ∧
    (∀ ItemSize K Buffer MemPoolBuffer h0, ItemSize ≠ 0 → Buffer ≠ 0 → MemPoolBuffer ≠ 0 →
      MEMPOOL_ALIGN plat Buffer = Buffer → 0 < K → 0 < itemStride plat ItemSize →
      K * itemStride plat ItemSize < plat.size →
      ∃ h, MemPoolCreateStatic cfg plat ItemSize 0 Buffer (K * itemStride plat ItemSize)
          MemPoolBuffer h0 = some (MemPoolBuffer, h) ∧
        (h.pool MemPoolBuffer).count = K ∧
        (IntExact plat K → MemPoolAvailable plat MemPoolBuffer h = K)) := by
  have hsz : 0 < plat.size := Nat.pow_pos (by decide)
  refine ⟨?_, ?_⟩
  · intro ItemSize ItemCount Buffer BufferSize MemPoolBuffer h0 p h heq hp hIC hBS
    obtain ⟨_, _, _, _, _, _, hpool⟩ := MemPoolCreateStatic_success heq hp
    have hcount : (h.pool p).count = staticCount plat ItemSize ItemCount Buffer BufferSize := by
      rw [hpool, Function.update_same]
    have hus : usableSize plat Buffer BufferSize < plat.size := Nat.mod_lt _ hsz
    have hlt : (h.pool p).count < plat.size := by
      rw [hcount]
      unfold staticCount
      split
      · exact Nat.lt_of_le_of_lt (Nat.div_le_self _ _) hus
      · exact hIC
    refine ⟨⟨fun hpos => ?_, fun hz hpad => ?_⟩, fun hint => ?_⟩
    · rw [hcount]
      simp [staticCount, Nat.ne_of_gt hpos]
    · have : usableSize plat Buffer BufferSize = BufferSize - alignPadding plat Buffer := by
        unfold usableSize
        have h1 : BufferSize + plat.size - alignPadding plat Buffer
            = (BufferSize - alignPadding plat Buffer) + plat.size := by omega
        rw [h1, Nat.add_mod_right]
        exact Nat.mod_eq_of_lt (by omega)
      rw [hcount]
      simp [staticCount, hz, this]
    · unfold MemPoolAvailable
      rw [if_neg hp]
      exact ofInt_toInt hint (Nat.le_refl _) hlt
  · intro ItemSize K Buffer MemPoolBuffer h0 hIS hB hMPB hal hK hstr hfit
    have hpad : alignPadding plat Buffer = 0 := by
      unfold alignPadding
      rw [hal]
      have : Buffer + plat.size - Buffer = plat.size := by omega
      rw [this, Nat.mod_self]
    have hus : usableSize plat Buffer (K * itemStride plat ItemSize)
        = K * itemStride plat ItemSize := by
      unfold usableSize
      rw [hpad, Nat.sub_zero, Nat.add_mod_right]
      exact Nat.mod_eq_of_lt hfit
    have hcount : staticCount plat ItemSize 0 Buffer (K * itemStride plat ItemSize) = K := by
      simp only [staticCount, ↓reduceIte, hus]
      exact Nat.mul_div_cancel _ hstr
    obtain ⟨hfst, hcnt⟩ := MemPoolCreateStatic_accepted cfg plat h0 hMPB hIS hB
      (Nat.ne_of_gt hstr) (by rw [hcount]; omega)
      (by rw [hcount, hus, Nat.mod_eq_of_lt hfit]; omega)
    refine ⟨_, eq_some_heapOf hfst, by rw [hcnt, hcount], fun hint => ?_⟩
    unfold MemPoolAvailable
    rw [if_neg hMPB, hcnt, hcount]
    refine ofInt_toInt hint (Nat.le_refl _) ?_
    have : K * 1 ≤ K * itemStride plat ItemSize := Nat.mul_le_mul_left _ hstr
    omega

/-- Instance of `static_item_count` on the 32-bit port: the explicit count of `demoHeap0`, and an
aligned buffer of exactly three strides. -/
theorem static_item_count_witness :
    (((0 < 2 → (demoHeap0.pool 8192).count = 2) ∧
        (2 = 0 → alignPadding ilp32 4096 ≤ 64 →
          (demoHeap0.pool 8192).count
            = (64 - alignPadding ilp32 4096) / itemStride ilp32 4)) ∧
      (IntExact ilp32 (demoHeap0.pool 8192).count →
        MemPoolAvailable ilp32 8192 demoHeap0 = (demoHeap0.pool 8192).count)) ∧
    (∃ h, MemPoolCreateStatic defaultConfig ilp32 4 0 4096 (3 * itemStride ilp32 4) 8192
        emptyHeap = some (8192, h) ∧ (h.pool 8192).count = 3 ∧
      (IntExact ilp32 3 → MemPoolAvailable ilp32 8192 h = 3)) :=
  ⟨(static_item_count defaultConfig ilp32).1 4 2 4096 64 8192 emptyHeap 8192 demoHeap0 rfl
      (by decide) (by decide) (by decide),
    (static_item_count defaultConfig ilp32).2 4 3 4096 8192 emptyHeap (by decide) (by decide)
      (by decide) (by decide) (by decide) (by decide) (by decide)⟩

/-- C7, the code at a failing input: a buffer sized by the rule of the header,
`ItemCount * (ItemSize + sizeof(StaticMemItem_t))`, is refused. On the 64-bit port
`MemPoolCreateStatic(1, 1, ..)` with an aligned buffer of `1 * (1 + 8)` bytes returns
`NULL`, because the stride is 16; on the 32-bit port with 8-byte alignment so does the
call of the test, `MemPoolCreateStatic(256, 32, ..)` with `32 * (256 + 4)` bytes. -/
theorem header_sizing_refused :
    itemStride lp64 1 = 16 ∧
    (MemPoolCreateStatic defaultConfig lp64 1 1 4096 (1 * (1 + lp64.sizeofStaticMemItem))
      8192 emptyHeap).map Prod.fst = some 0 ∧
    itemStride ilp32 256 = 264 ∧
    (MemPoolCreateStatic defaultConfig ilp32 256 32 4096
      (32 * (256 + ilp32.sizeofStaticMemItem)) 8192 emptyHeap).map Prod.fst = some 0 := by
  refine ⟨by decide, rfl, by decide, rfl⟩

/-- C10 fails as stated: with `MEMPOOL_FREEPTR` off, `MemPoolFreePtr(NULL)` returns
normally and leaves the memory as it is. -/
theorem freePtr_null_no_assert :
    MemPoolFreePtr { premap := true, freeptr := false } ilp32 0 demoHeap1 = some demoHeap1 ∧
    MemPoolFreePtr { premap := true, freeptr := false } ilp32 0 demoHeap1 ≠ none := by
  refine ⟨rfl, ?_⟩
  intro hx
  cases hx

/-- C10 amended. With `MEMPOOL_FREEPTR` off, `MemPoolFreePtr` stops on its assertion
for every non-NULL argument, and returns without touching the memory for `NULL`. -/
theorem freePtr_disabled {cfg : Config} (plat : Platform) (ptr : Nat) (h : Heap)
    (hfp : cfg.freeptr = false) :
    (ptr ≠ 0 → MemPoolFreePtr cfg plat ptr h = none) ∧
    (ptr = 0 → MemPoolFreePtr cfg plat ptr h = some h) := by
  refine ⟨fun hne => ?_, fun hz => ?_⟩
  · simp [MemPoolFreePtr, hfp, hne]
  · simp [MemPoolFreePtr, hfp, hz]

/-- Instance of the amended C10: the block allocated in `demoHeap1`, and `NULL`. -/
theorem freePtr_disabled_witness :
    (MemPoolFreePtr { premap := true, freeptr := false } ilp32 4120 demoHeap1 = none) ∧
    (MemPoolFreePtr { premap := true, freeptr := false } ilp32 0 demoHeap1 = some demoHeap1) :=
  ⟨(@freePtr_disabled { premap := true, freeptr := false } ilp32 4120 demoHeap1 rfl).1
      (by decide),
    (@freePtr_disabled { premap := true, freeptr := false } ilp32 0 demoHeap1 rfl).2 rfl⟩

/-! ## Where the head and the allocated blocks are -/

/-- With items left, the head of the free list is a slot of the pool. -/
theorem inv_head_slot {cfg : Config} {plat : Platform} {g : Layout} {p : Nat} {h : Heap}
    {live : List Nat} (hinv : Inv cfg plat g p h live) (hc : (h.pool p).count ≠ 0) :
    ∃ k, k < g.cap ∧ (h.pool p).next = g.slot k := by
  obtain ⟨fl, li, v, hvle, hpre, hchain, _, hcount, hperm, _, _⟩ := hinv
  cases fl with
  | cons a fl1 =>
    obtain ⟨k, hk, hka⟩ := mem_slotsBelow.mp (hperm.mem_iff.mp (by simp : a ∈ a :: fl1 ++ li))
    exact ⟨k, Nat.lt_of_lt_of_le hk hvle, by rw [hchain.1, hka]⟩
  | nil =>
    have hhead : (h.pool p).next = if cfg.premap = true then 0 else g.slot v := hchain
    simp only [List.length_nil, Nat.zero_add] at hcount
    have hvlt : v < g.cap := by omega
    have hpm : cfg.premap = false := by
      cases hcp : cfg.premap with
      | false => rfl
      | true => exact absurd (hpre hcp) (by omega)
    simp only [hpm, Bool.false_eq_true, ↓reduceIte] at hhead
    exact ⟨v, hvlt, hhead⟩

/-- An allocated block is the payload of a slot of the pool. -/
theorem inv_live_slot {cfg : Config} {plat : Platform} {g : Layout} {p : Nat} {h : Heap}
    {live : List Nat} (hinv : Inv cfg plat g p h live) {ptr : Nat} (hlv : ptr ∈ live) :
    ∃ k, k < g.cap ∧ ptr = g.slot k + hdrSize plat := by
  obtain ⟨fl, li, v, hvle, _, _, _, _, hperm, hlive, _⟩ := hinv
  rw [hlive] at hlv
  obtain ⟨a, hali, hap⟩ := List.mem_map.mp hlv
  obtain ⟨k, hk, hka⟩ := mem_slotsBelow.mp (hperm.mem_iff.mp (by simp [hali] : a ∈ fl ++ li))
  exact ⟨k, Nat.lt_of_lt_of_le hk hvle, by rw [← hap, hka]⟩

/-- What a successful allocation returns: the payload of the head item. -/
theorem alloc_returns_head {cfg : Config} {plat : Platform} {g : Layout} {p : Nat}
    {h h1 : Heap} {live : List Nat} {ptr : Nat} (hv : g.Valid plat) (hp : p ≠ 0)
    (hinv : Inv cfg plat g p h live) (heq : MemPoolAlloc cfg plat p h = some (ptr, h1))
    (hne : ptr ≠ 0) :
    ∃ k, k < g.cap ∧ (h.pool p).next = g.slot k ∧ ptr = g.slot k + hdrSize plat ∧
      itemOf plat ptr = g.slot k := by
  by_cases hcz : (h.pool p).count = 0
  · rw [MemPoolAlloc_of_empty cfg plat hp hcz] at heq
    simp only [Option.some.injEq, Prod.mk.injEq] at heq
    exact absurd heq.1.symm hne
  · obtain ⟨k, hk, hks⟩ := inv_head_slot hinv hcz
    have hb := (slot_bounds hv (Nat.le_of_lt hk)).1
    have hptr := slot_ptr_bounds hv hk
    rw [MemPoolAlloc_of_head cfg plat hp hcz (by rw [hks]; omega)] at heq
    simp only [Option.some.injEq, Prod.mk.injEq] at heq
    have hpe : ptr = g.slot k + hdrSize plat := by
      rw [← heq.1, hks, Nat.mod_eq_of_lt hptr]
    exact ⟨k, hk, hks, hpe, by rw [hpe]; exact itemOf_ptr hptr⟩

/-! ## Alignment of the layout -/

theorem lp64_wf : lp64.WF := ⟨3, by decide, rfl, rfl⟩

/-- C12. `MemPoolCreate` returns `NULL` exactly when `ItemSize` is zero, or `ItemCount` is
zero, or `pvPortMalloc` returns `NULL` for the request. With a zero parameter it makes no
request to the allocator: it returns `NULL` and the same memory whatever the allocator
is. In every case its result depends on the allocator only through the answers to the
requests of `mallocRequests`. -/
theorem create_null_iff (cfg : Config) (plat : Platform) (pvPortMalloc : Nat → Nat)
    (ItemSize ItemCount : Nat) (h : Heap) :
    ((MemPoolCreate cfg plat pvPortMalloc ItemSize ItemCount h).1 = 0 ↔
      (ItemSize = 0 ∨ ItemCount = 0 ∨
        pvPortMalloc ((MEMPOOL_ALIGN plat plat.sizeofMemPool
          + ItemCount * itemStride plat ItemSize) % plat.size) = 0)) ∧
    (ItemSize = 0 ∨ ItemCount = 0 →
      mallocRequests plat ItemSize ItemCount = [] ∧
      ∀ m : Nat → Nat, MemPoolCreate cfg plat m ItemSize ItemCount h = (0, h)) ∧
    (∀ m : Nat → Nat, (∀ n ∈ mallocRequests plat ItemSize ItemCount, m n = pvPortMalloc n) →
      MemPoolCreate cfg plat m ItemSize ItemCount h
        = MemPoolCreate cfg plat pvPortMalloc ItemSize ItemCount h) := by
  refine ⟨?_, ?_, ?_⟩
  · by_cases h1 : ItemSize = 0 ∨ ItemCount = 0
    · have h2 : ItemSize = 0 ∨ ItemCount = 0 ∨ pvPortMalloc ((MEMPOOL_ALIGN plat
          plat.sizeofMemPool + ItemCount * itemStride plat ItemSize) % plat.size) = 0 := by
        rcases h1 with hx | hx
        · exact Or.inl hx
        · exact Or.inr (Or.inl hx)
      simp only [MemPoolCreate, h1, ↓reduceIte, h2]
    · have hs : ItemSize ≠ 0 := fun hx => h1 (Or.inl hx)
      have hn : ItemCount ≠ 0 := fun hx => h1 (Or.inr hx)
      by_cases h3 : pvPortMalloc ((MEMPOOL_ALIGN plat plat.sizeofMemPool
          + ItemCount * itemStride plat ItemSize) % plat.size) = 0
      · simp only [MemPoolCreate, h1, ↓reduceIte, h3, or_true]
      · rw [(MemPoolCreate_granted cfg plat pvPortMalloc h hs hn h3).1]
        simp [hs, hn, h3]
  · intro h1
    refine ⟨by simp only [mallocRequests, h1, ↓reduceIte], fun m => ?_⟩
    simp only [MemPoolCreate, h1, ↓reduceIte]
  · intro m hm
    by_cases h1 : ItemSize = 0 ∨ ItemCount = 0
    · simp only [MemPoolCreate, h1, ↓reduceIte]
    · have hreq := hm ((MEMPOOL_ALIGN plat plat.sizeofMemPool
          + ItemCount * itemStride plat ItemSize) % plat.size)
        (by simp only [mallocRequests, h1, ↓reduceIte, List.mem_singleton])
      simp only [MemPoolCreate, h1, ↓reduceIte, hreq]

/-- Instance of C12 on the 32-bit port: a zero item size, and an allocator that differs
from the one given only outside the request. -/
theorem create_null_iff_witness :
    (mallocRequests ilp32 0 2 = [] ∧
      ∀ m : Nat → Nat, MemPoolCreate defaultConfig ilp32 m 0 2 emptyHeap = (0, emptyHeap)) ∧
    MemPoolCreate defaultConfig ilp32 (fun n => if n = 48 then 4096 else 0) 4 2 emptyHeap
      = MemPoolCreate defaultConfig ilp32 (fun _ => 4096) 4 2 emptyHeap :=
  ⟨(create_null_iff defaultConfig ilp32 (fun _ => 4096) 0 2 emptyHeap).2.1 (Or.inl rfl),
    (create_null_iff defaultConfig ilp32 (fun _ => 4096) 4 2 emptyHeap).2.2
      (fun n => if n = 48 then 4096 else 0) (by decide)⟩

/-- Shape of the free list on slots that exist. In a premap build, in every state a pool
built on slots that exist (`Layout.Valid`) reaches: the
links from the head of the pool run through a list without repetition (no cycle) that
ends in a `NULL` link, every element of the list is a slot of the pool whose block is
not allocated, the length of the list is the remaining count, and the count is at most
the item count of the pool. -/
theorem free_list_invariant {cfg : Config} {plat : Platform} {g : Layout} {p : Nat}
    {h0 h : Heap} {live : List Nat} (hc : Created cfg plat p h0 g) (hv : g.Valid plat)
    (hpm : cfg.premap = true) (hr : Reachable cfg plat g p h0 h live) :
    ∃ fl : List Nat, Chain h.item (h.pool p).next fl 0 ∧ fl.Nodup ∧
      (∀ a ∈ fl, (∃ k, k < g.cap ∧ a = g.slot k) ∧ a + hdrSize plat ∉ live) ∧
      fl.length = (h.pool p).count ∧ (h.pool p).count ≤ g.cap := by
  have hinv := inv_reachable hc hv hr
  have hle := hinv.count_le
  obtain ⟨fl, li, v, hvle, hpre, hchain, _, hcount, hperm, hlive, _⟩ := hinv
  have hs : 0 < g.stride := hv.2.1
  have hnd : (fl ++ li).Nodup := hperm.nodup_iff.mpr (slotsBelow_nodup hs v)
  have hvc : v = g.cap := hpre hpm
  simp only [hpm, ↓reduceIte] at hchain
  refine ⟨fl, hchain, (List.nodup_append.mp hnd).1, ?_, by omega, by omega⟩
  intro a ha
  obtain ⟨k, hk, hka⟩ := mem_slotsBelow.mp (hperm.mem_iff.mp (by simp [ha] : a ∈ fl ++ li))
  refine ⟨⟨k, by omega, hka.symm⟩, ?_⟩
  rw [hlive]
  intro hx
  obtain ⟨b, hb, hba⟩ := List.mem_map.mp hx
  have hab : b = a := by omega
  exact (List.nodup_append.mp hnd).2.2 ha (hab ▸ hb)

/-- Instance of `free_list_invariant`: the two-slot pool of `demoHeap0` after one allocation. -/
theorem free_list_invariant_witness :
    ∃ fl : List Nat, Chain demoHeap1.item (demoHeap1.pool 8192).next fl 0 ∧ fl.Nodup ∧
      (∀ a ∈ fl, (∃ k, k < demoLayout.cap ∧ a = demoLayout.slot k) ∧
        a + hdrSize ilp32 ∉ [4120]) ∧
      fl.length = (demoHeap1.pool 8192).count ∧ (demoHeap1.pool 8192).count ≤ demoLayout.cap :=
  @free_list_invariant defaultConfig ilp32 demoLayout 8192 demoHeap0 demoHeap1 [4120]
    (Created.static 4 2 4096 64 8192 emptyHeap rfl (by decide))
    ⟨by decide, by decide, by decide, by decide⟩ rfl
    (Reachable.alloc Reachable.init (rfl : MemPoolAlloc defaultConfig ilp32 8192 demoHeap0
      = some (4120, demoHeap1)) (by decide))

/-- C16, the code at a failing input (32-bit port): `MemPoolCreate(8, 0x10000000)`. The
only request to the allocator is for 16 bytes, the size of the pool header alone, while
header and items take `16 + 0x10000000 * 16` bytes; an allocator that grants exactly
that request gets the pool built, with `0x10000000` items, and already the first slot,
at offset 16, ends beyond the 16 bytes requested. -/
theorem create_request_wraps :
    mallocRequests ilp32 8 (2 ^ 28) = [16] ∧
    MEMPOOL_ALIGN ilp32 ilp32.sizeofMemPool + 2 ^ 28 * (hdrSize ilp32 + MEMPOOL_ALIGN ilp32 8)
      = 16 + 2 ^ 32 ∧
    (MemPoolCreate defaultConfig ilp32 (fun n => if n = 16 then 4096 else 0) 8 (2 ^ 28)
      emptyHeap).1 = 4096 ∧
    (((MemPoolCreate defaultConfig ilp32 (fun n => if n = 16 then 4096 else 0) 8 (2 ^ 28)
      emptyHeap).2).pool 4096).count = 2 ^ 28 ∧
    16 < MEMPOOL_ALIGN ilp32 ilp32.sizeofMemPool + 0 * itemStride ilp32 8
      + itemStride ilp32 8 := by
  have hreq : (MEMPOOL_ALIGN ilp32 ilp32.sizeofMemPool + 2 ^ 28 * itemStride ilp32 8)
      % ilp32.size = 16 := by decide
  have hg := @MemPoolCreate_granted defaultConfig ilp32
    (fun n => if n = 16 then 4096 else 0) 8 (2 ^ 28) emptyHeap
    (by decide) (by decide) (by rw [hreq]; decide)
  rw [hreq] at hg
  simp only [↓reduceIte] at hg
  exact ⟨by decide, by decide, hg.1, hg.2, by decide⟩

/-- C17, the code at a failing input (32-bit port, lazy build): a static pool of one
item in a buffer of exactly one stride, `[0x1000, 0x1010)`. The allocation of that last
item finds its link empty and, the count being tested before it is decremented, maps a
next slot: it writes `NULL` over the word at `0x1010`, the slot of index 1 of a pool of
one item, outside the buffer, and installs it as head of the free list. -/
theorem lazy_maps_past_end :
    (lazyHeap0.pool 8192).count = 1 ∧ (lazyHeap0.pool 8192).next = 4096 ∧
    (lazyHeap0.pool 8192).isize = 16 ∧ lazyHeap0.item 4112 = 238 ∧
    MemPoolAlloc lazyConfig ilp32 8192 lazyHeap0 = some (4104, lazyHeap1) ∧
    (lazyHeap1.pool 8192).count = 0 ∧ (lazyHeap1.pool 8192).next = 4112 ∧
    lazyHeap1.item 4112 = 0 ∧
    4112 = MEMPOOL_ALIGN ilp32 4096 + 1 * itemStride ilp32 4 ∧ 4096 + 16 ≤ 4112 := by
  refine ⟨rfl, rfl, rfl, rfl, rfl, rfl, rfl, rfl, by decide, by decide⟩
/-- The links of a premap build right after the free list is set up: the head is the last
slot, every slot but the first links to the slot before it, and the first links to
`NULL`. -/
theorem linkItems_premap_links {cfg : Config} {plat : Platform} {g : Layout}
    (hv : g.Valid plat) (hcap : 0 < g.cap) (hpm : cfg.premap = true) (mem : Nat → Nat) :
    (linkItems cfg plat g.stride g.cap g.base mem).1 = g.slot (g.cap - 1) ∧
    (∀ k, 0 < k → k < g.cap →
      (linkItems cfg plat g.stride g.cap g.base mem).2 (g.slot k) = g.slot (k - 1)) ∧
    (linkItems cfg plat g.stride g.cap g.base mem).2 (g.slot 0) = 0 := by
  have hs : 0 < g.stride := hv.2.1
  have hbase : g.base = g.slot 0 := by simp [Layout.slot]
  have hlt : g.slot (0 + (g.cap - 1)) < plat.size := (slot_bounds hv (by omega)).2
  obtain ⟨s1, s2, s3⟩ :=
    premapLoop_spec plat hs (g.cap - 1) 0 (Function.update mem (g.slot 0) 0) hlt
  rw [Nat.zero_add] at s1 s2
  simp only [linkItems, hpm, ↓reduceIte]
  rw [hbase]
  refine ⟨s1, fun k hk0 hk => s2 k hk0 (by omega), ?_⟩
  rw [s3 _ (fun i h1 _ => Nat.ne_of_lt (slot_lt_slot hs h1)), Function.update_same]

/-- C18 fails as stated: in the two-slot premap pool of `demoHeap0`, right after its
construction, the head of the free list is the second slot `0x1010` and not the first,
the first slot links to `NULL` and not to the second, and the last slot links to the
first instead of `NULL`. -/
theorem premap_not_storage_order :
    demoLayout.slot 0 = 4096 ∧ demoLayout.slot 1 = 4112 ∧
    (demoHeap0.pool 8192).next = 4112 ∧ demoHeap0.item 4096 = 0 ∧
    demoHeap0.item 4112 = 4096 ∧
    ¬ ((demoHeap0.pool 8192).next = demoLayout.slot 0 ∧
      demoHeap0.item (demoLayout.slot 0) = demoLayout.slot 1 ∧
      demoHeap0.item (demoLayout.slot 1) = 0) := by
  refine ⟨rfl, rfl, rfl, rfl, rfl, ?_⟩
  intro hx
  exact absurd hx.1 (by decide)

/-- C18 amended. Right after construction in a premap build, by either constructor, of
a pool whose slots exist (`Layout.Valid`: the first slot is not at address 0, the stride
is positive and at least the aligned item header, and the address after the last slot
is below `2 ^ ptrBits`) and whose descriptor shares no byte with the slots
(`Layout.Apart`): the head of the free list is the last item in storage order, the link
of every item `k` from 1 on refers to item `k - 1`, and the link of the first item is
empty. The descriptor and the link words are separate cells of the memory of the
embedding; `Layout.Apart` keeps the statement to the pools for which they are separate
in the memory of the code as well. -/
theorem premap_layout {cfg : Config} {plat : Platform} {g : Layout} {p : Nat} {h : Heap}
    (hc : Created cfg plat p h g) (hv : g.Valid plat) (hap : g.Apart plat p)
    (hpm : cfg.premap = true) :
    (h.pool p).next = g.slot (g.cap - 1) ∧
    (∀ k, 0 < k → k < g.cap → h.item (g.slot k) = g.slot (k - 1)) ∧
    h.item (g.slot 0) = 0 := by
  cases hc with
  | dynamic pvPortMalloc ItemSize ItemCount h0 heq hp =>
    obtain ⟨_, hcnt, _, hitem, hpool⟩ := MemPoolCreate_success heq hp
    obtain ⟨l1, l2, l3⟩ := linkItems_premap_links hv (Nat.pos_of_ne_zero hcnt) hpm h0.item
    rw [hitem, hpool, Function.update_same]
    exact ⟨l1, l2, l3⟩
  | static ItemSize ItemCount Buffer BufferSize MemPoolBuffer h0 heq hp =>
    obtain ⟨_, _, _, hcnt, _, hitem, hpool⟩ := MemPoolCreateStatic_success heq hp
    have hcount : (h.pool p).count = staticCount plat ItemSize ItemCount Buffer BufferSize := by
      rw [hpool, Function.update_same]
    rw [hcount] at hv ⊢
    obtain ⟨l1, l2, l3⟩ := linkItems_premap_links hv (Nat.pos_of_ne_zero hcnt) hpm h0.item
    rw [hitem, hpool, Function.update_same]
    exact ⟨l1, l2, l3⟩

/-- Instance of the amended C18: the two-slot pool of `demoHeap0`. -/
theorem premap_layout_witness :
    (demoHeap0.pool 8192).next = demoLayout.slot (demoLayout.cap - 1) ∧
    (∀ k, 0 < k → k < demoLayout.cap →
      demoHeap0.item (demoLayout.slot k) = demoLayout.slot (k - 1)) ∧
    demoHeap0.item (demoLayout.slot 0) = 0 :=
  @premap_layout defaultConfig ilp32 demoLayout 8192 demoHeap0
    (Created.static 4 2 4096 64 8192 emptyHeap rfl (by decide))
    ⟨by decide, by decide, by decide, by decide⟩ (Or.inr (by decide)) rfl

theorem MemPoolAvailable_congr (plat : Platform) {pA pB : Nat} {hA hB : Heap} (hpA : pA ≠ 0)
    (hpB : pB ≠ 0) (hcnt : (hA.pool pA).count = (hB.pool pB).count) :
    MemPoolAvailable plat pA hA = MemPoolAvailable plat pB hB := by
  unfold MemPoolAvailable
  rw [if_neg hpA, if_neg hpB, hcnt]

/-- Putting the same observation in front of two runs that agree keeps them in
agreement, and adds no assertion. -/
theorem consObs_sync (x : Bool × Nat) {rA rB : Except RunStop (List (Bool × Nat))}
    (hr : rA = rB) (hne : rA ≠ Except.error RunStop.assertion) :
    consObs x rA = consObs x rB ∧ consObs x rA ≠ Except.error RunStop.assertion := by
  subst hr
  refine ⟨rfl, ?_⟩
  cases rA with
  | error e => exact hne
  | ok obs => intro hx; cases hx

/-- Two pools that satisfy their invariants with the same count and the same number of
allocated blocks give the same observations on every run, and no run asserts. -/
theorem runOps_sync {cfgA cfgB : Config} {plat : Platform} {gA gB : Layout} {pA pB : Nat}
    (hvA : gA.Valid plat) (hvB : gB.Valid plat) (hpA : pA ≠ 0) (hpB : pB ≠ 0) :
    ∀ (ops : List PoolOp) (hA hB : Heap) (liveA liveB : List Nat),
      Inv cfgA plat gA pA hA liveA → Inv cfgB plat gB pB hB liveB →
      (hA.pool pA).count = (hB.pool pB).count → liveA.length = liveB.length →
      runOps cfgA plat pA ops hA liveA = runOps cfgB plat pB ops hB liveB ∧
      runOps cfgA plat pA ops hA liveA ≠ Except.error RunStop.assertion := by
  intro ops
  induction ops with
  | nil =>
    intro hA hB liveA liveB _ _ _ _
    refine ⟨rfl, ?_⟩
    intro hx
    cases hx
  | cons op ops ih =>
    intro hA hB liveA liveB hinvA hinvB hcnt hlen
    cases op with
    | alloc =>
      by_cases hcz : (hA.pool pA).count = 0
      · have hczB : (hB.pool pB).count = 0 := by omega
        have eA := MemPoolAlloc_of_empty cfgA plat hpA hcz
        have eB := MemPoolAlloc_of_empty cfgB plat hpB hczB
        obtain ⟨ih1, ih2⟩ := ih hA hB liveA liveB hinvA hinvB hcnt hlen
        simp only [runOps, eA, eB, ↓reduceIte, decide_True]
        rw [MemPoolAvailable_congr plat hpA hpB hcnt]
        exact consObs_sync _ ih1 ih2
      · have hczB : (hB.pool pB).count ≠ 0 := by omega
        obtain ⟨qA, hA1, eA, hqA, _, hcA, hinvA1⟩ := inv_alloc hvA hpA hinvA hcz
        obtain ⟨qB, hB1, eB, hqB, _, hcB, hinvB1⟩ := inv_alloc hvB hpB hinvB hczB
        have hcnt1 : (hA1.pool pA).count = (hB1.pool pB).count := by omega
        obtain ⟨ih1, ih2⟩ := ih hA1 hB1 (qA :: liveA) (qB :: liveB) hinvA1 hinvB1 hcnt1
          (by simp [hlen])
        simp only [runOps, eA, eB, hqA, hqB, ↓reduceIte, decide_False]
        rw [MemPoolAvailable_congr plat hpA hpB hcnt1]
        exact consObs_sync _ ih1 ih2
    | free i =>
      by_cases hi : i < liveA.length
      · have hiB : i < liveB.length := by omega
        have gA1 : liveA.get? i = some (liveA.get ⟨i, hi⟩) := List.get?_eq_get hi
        have gB1 : liveB.get? i = some (liveB.get ⟨i, hiB⟩) := List.get?_eq_get hiB
        have mA : liveA.get ⟨i, hi⟩ ∈ liveA := List.get_mem _ _ _
        have mB : liveB.get ⟨i, hiB⟩ ∈ liveB := List.get_mem _ _ _
        obtain ⟨eA, _, hcA, _, _, _, hinvA1⟩ := inv_free hvA hpA hinvA mA
        obtain ⟨eB, _, hcB, _, _, _, hinvB1⟩ := inv_free hvB hpB hinvB mB
        have hcnt1 : ((pushItem plat pA (itemOf plat (liveA.get ⟨i, hi⟩)) hA).pool pA).count
            = ((pushItem plat pB (itemOf plat (liveB.get ⟨i, hiB⟩)) hB).pool pB).count := by
          omega
        obtain ⟨ih1, ih2⟩ := ih _ _ _ _ hinvA1 hinvB1 hcnt1
          (by rw [List.length_erase_of_mem mA, List.length_erase_of_mem mB, hlen])
        simp only [runOps, gA1, gB1, eA, eB]
        rw [MemPoolAvailable_congr plat hpA hpB hcnt1]
        exact consObs_sync _ ih1 ih2
      · have gA1 : liveA.get? i = none := List.get?_eq_none.mpr (by omega)
        have gB1 : liveB.get? i = none := List.get?_eq_none.mpr (by omega)
        have eA : runOps cfgA plat pA (PoolOp.free i :: ops) hA liveA
            = Except.error RunStop.invalid := by simp only [runOps, gA1]
        have eB : runOps cfgB plat pB (PoolOp.free i :: ops) hB liveB
            = Except.error RunStop.invalid := by simp only [runOps, gB1]
        rw [eA, eB]
        refine ⟨rfl, ?_⟩
        intro hx
        cases hx

/-- Lazy and premap builds on slots that exist. Two pools built with any two settings of
the switches, in particular one with
`MEMPOOL_PREMAP` 0 and one with `MEMPOOL_PREMAP` 1, each by one of the constructors on
slots that exist (`Layout.Valid`), with the same item count: every sequence of
allocations and of
releases of the `i`-th allocated block, applied to both, gives the same list of
observations (whether `MemPoolAlloc` returned `NULL`, and the value of
`MemPoolAvailable`, after every step), stops on both at the same step when it names a
block that does not exist, and fires no assertion. -/
theorem lazy_premap_equivalent {cfgL cfgP : Config} {plat : Platform} {gL gP : Layout}
    {pL pP : Nat} {hL hP : Heap}
    (hcL : Created cfgL plat pL hL gL) (hcP : Created cfgP plat pP hP gP)
    (hvL : gL.Valid plat) (hvP : gP.Valid plat) (hcap : gL.cap = gP.cap)
    (ops : List PoolOp) :
    runOps cfgL plat pL ops hL [] = runOps cfgP plat pP ops hP [] ∧
    runOps cfgL plat pL ops hL [] ≠ Except.error RunStop.assertion := by
  have hinvL := inv_created hcL hvL
  have hinvP := inv_created hcP hvP
  have hcntL := hinvL.count_le
  have hcntP := hinvP.count_le
  simp only [List.length_nil, Nat.add_zero] at hcntL hcntP
  exact runOps_sync hvL hvP hcL.handle_ne_zero hcP.handle_ne_zero ops hL hP [] []
    hinvL hinvP (by omega) rfl

/-- Instance of `lazy_premap_equivalent`: the two-slot pool built lazily and built premapped, under three
allocations (the third fails), a release and another allocation. -/
theorem lazy_premap_equivalent_witness :
    runOps lazyConfig ilp32 8192
        [PoolOp.alloc, PoolOp.alloc, PoolOp.alloc, PoolOp.free 1, PoolOp.alloc]
        lazyDemoHeap0 [] =
      runOps defaultConfig ilp32 8192
        [PoolOp.alloc, PoolOp.alloc, PoolOp.alloc, PoolOp.free 1, PoolOp.alloc]
        demoHeap0 [] ∧
    runOps lazyConfig ilp32 8192
        [PoolOp.alloc, PoolOp.alloc, PoolOp.alloc, PoolOp.free 1, PoolOp.alloc]
        lazyDemoHeap0 [] ≠ Except.error RunStop.assertion :=
  @lazy_premap_equivalent lazyConfig defaultConfig ilp32 demoLayout demoLayout 8192 8192
    lazyDemoHeap0 demoHeap0
    (Created.static 4 2 4096 64 8192 emptyHeap rfl (by decide))
    (Created.static 4 2 4096 64 8192 emptyHeap rfl (by decide))
    ⟨by decide, by decide, by decide, by decide⟩
    ⟨by decide, by decide, by decide, by decide⟩ rfl
    [PoolOp.alloc, PoolOp.alloc, PoolOp.alloc, PoolOp.free 1, PoolOp.alloc]

/-! ## Releasing a block twice -/

theorem Chain.head_mem {mem : Nat → Nat} {l : List Nat} {hd t : Nat}
    (hc : Chain mem hd l t) : hd ∈ l ∨ hd = t := by
  cases l with
  | nil => exact Or.inr hc
  | cons a l => exact Or.inl (by rw [hc.1]; exact List.mem_cons_self a l)

/-- The link of an element of a chain is the next element or the end of the chain. -/
theorem Chain.link_mem {mem : Nat → Nat} {l : List Nat} {hd t a : Nat}
    (hc : Chain mem hd l t) (ha : a ∈ l) : mem a ∈ l ∨ mem a = t := by
  induction l generalizing hd with
  | nil => exact absurd ha (List.not_mem_nil a)
  | cons b l ih =>
    obtain ⟨_, h2⟩ := hc
    rcases List.mem_cons.mp ha with hab | hal
    · subst hab
      rcases h2.head_mem with hm | ht
      · exact Or.inl (List.mem_cons_of_mem _ hm)
      · exact Or.inr ht
    · rcases ih h2 hal with hm | ht
      · exact Or.inl (List.mem_cons_of_mem _ hm)
      · exact Or.inr ht

theorem Chain.append {mem : Nat → Nat} {l1 l2 : List Nat} {hd t t2 : Nat}
    (h1 : Chain mem hd l1 t) (h2 : Chain mem t l2 t2) : Chain mem hd (l1 ++ l2) t2 := by
  induction l1 generalizing hd with
  | nil => rw [show hd = t from h1]; exact h2
  | cons a l ih => exact ⟨h1.1, ih h1.2⟩

/-- The items between a head and the first empty link are determined by the memory. -/
theorem Chain.unique {mem : Nat → Nat} {l1 l2 : List Nat} {hd : Nat}
    (h1 : Chain mem hd l1 0) (h2 : Chain mem hd l2 0) (z1 : 0 ∉ l1) (z2 : 0 ∉ l2) :
    l1 = l2 := by
  induction l1 generalizing hd l2 with
  | nil =>
    cases l2 with
    | nil => rfl
    | cons b l =>
      have e1 : hd = 0 := h1
      have e2 : hd = b := h2.1
      exact absurd (by rw [← e2, e1]; exact List.mem_cons_self _ _) z2
  | cons a l ih =>
    cases l2 with
    | nil =>
      have e1 : hd = a := h1.1
      have e2 : hd = 0 := h2
      exact absurd (by rw [← e1, e2]; exact List.mem_cons_self _ _) z1
    | cons b l3 =>
      have hab : a = b := by rw [← h1.1, ← h2.1]
      subst hab
      rw [ih h1.2 h2.2 (fun hz => z1 (List.mem_cons_of_mem _ hz))
        (fun hz => z2 (List.mem_cons_of_mem _ hz))]

theorem lazyMap_frame (cfg : Config) (plat : Platform) (P : MemPool) {item x : Nat}
    (mem : Nat → Nat) (hx : x ≠ item) :
    lazyMap cfg plat P item mem x = mem x ∨ lazyMap cfg plat P item mem x = 0 := by
  by_cases hcnd : cfg.premap = false ∧ P.count ≠ 0 ∧ mem item = 0
  · rw [lazyMap_of_virgin plat hcnd.1 hcnd.2.1 hcnd.2.2]
    by_cases hxw : x = (item + P.isize) % plat.size
    · right
      rw [hxw, Function.update_same]
    · left
      rw [Function.update_noteq hxw, Function.update_noteq hx]
  · left
    simp only [lazyMap, hcnd, ↓reduceIte]

/-- In a pool whose descriptor is at the address of none of its slots (in a lazy build
the slot after the last one included), the head of the free list is not the descriptor,
and the items from the head to the first empty link are not `NULL` and none of them
links to the descriptor. -/
theorem inv_free_list {cfg : Config} {plat : Platform} {g : Layout} {p : Nat} {h : Heap}
    {live : List Nat} (hv : g.Valid plat) (hp : p ≠ 0)
    (hs1 : ∀ k, k < g.cap → g.slot k ≠ p) (hs2 : cfg.premap = false → g.slot g.cap ≠ p)
    (hinv : Inv cfg plat g p h live) :
    (h.pool p).next ≠ p ∧
    ∃ L, Chain h.item (h.pool p).next L 0 ∧ 0 ∉ L ∧ ∀ a ∈ L, h.item a ≠ p := by
  obtain ⟨fl, li, v, hvle, hpre, hchain, hlazy, hcount, hperm, hlive, htag⟩ := hinv
  have hfl : ∀ a ∈ fl, ∃ k, k < g.cap ∧ a = g.slot k := by
    intro a ha
    obtain ⟨k, hk, hka⟩ := mem_slotsBelow.mp (hperm.mem_iff.mp (by simp [ha] : a ∈ fl ++ li))
    exact ⟨k, Nat.lt_of_lt_of_le hk hvle, hka.symm⟩
  have hflp : ∀ a ∈ fl, a ≠ p := by
    intro a ha
    obtain ⟨k, hk, hka⟩ := hfl a ha
    rw [hka]
    exact hs1 k hk
  have hfl0 : ∀ a ∈ fl, a ≠ 0 := by
    intro a ha
    obtain ⟨k, hk, hka⟩ := hfl a ha
    have := (slot_bounds hv (Nat.le_of_lt hk)).1
    omega
  cases hpm : cfg.premap with
  | true =>
    simp only [hpm, ↓reduceIte] at hchain
    refine ⟨?_, fl, hchain, fun hz => hfl0 0 hz rfl, ?_⟩
    · rcases hchain.head_mem with hm | ht
      · exact hflp _ hm
      · rw [ht]; exact fun e => hp e.symm
    · intro a ha
      rcases hchain.link_mem ha with hm | ht
      · exact hflp _ hm
      · rw [ht]; exact fun e => hp e.symm
  | false =>
    simp only [hpm, Bool.false_eq_true, ↓reduceIte] at hchain
    have hz := (hlazy hpm).1
    have hvp : g.slot v ≠ p := by
      rcases Nat.lt_or_ge v g.cap with hlt | hge
      · exact hs1 v hlt
      · have hvc : v = g.cap := by omega
        rw [hvc]
        exact hs2 hpm
    have hv0 := (slot_bounds hv hvle).1
    have hend : Chain h.item (g.slot v) [g.slot v] 0 := ⟨rfl, hz⟩
    refine ⟨?_, fl ++ [g.slot v], hchain.append hend, ?_, ?_⟩
    · rcases hchain.head_mem with hm | ht
      · exact hflp _ hm
      · rw [ht]; exact hvp
    · intro hz0
      rcases List.mem_append.mp hz0 with hm | hm
      · exact hfl0 0 hm rfl
      · rw [List.mem_singleton] at hm
        omega
    · intro a ha
      rcases List.mem_append.mp ha with hm | hm
      · rcases hchain.link_mem hm with hm1 | ht
        · exact hflp _ hm1
        · rw [ht]; exact hvp
      · rw [List.mem_singleton] at hm
        rw [hm, hz]
        exact fun e => hp e.symm

theorem Released.reachable {cfg : Config} {plat : Platform} {g : Layout} {p : Nat}
    {h0 h : Heap} {live freed : List Nat} (hr : Released cfg plat g p h0 h live freed) :
    Reachable cfg plat g p h0 h live := by
  induction hr with
  | init => exact Reachable.init
  | alloc _ heq hptr ih => exact Reachable.alloc ih heq hptr
  | allocNull _ heq ih => exact Reachable.allocNull ih heq
  | free _ hmem heq ih => exact Reachable.free ih hmem heq
  | freePtr _ hmem heq ih => exact Reachable.freePtr ih hmem heq
  | other _ hpool hitem ih => exact Reachable.other ih hpool hitem
/-- The release of an allocated block keeps the blocks released before it, and the
block itself, with a link that is not the descriptor of the pool. -/
theorem push_links {cfg : Config} {plat : Platform} {g : Layout} {p : Nat} {h : Heap}
    {live freed : List Nat} {ptr : Nat} (hv : g.Valid plat) (hp : p ≠ 0)
    (hs1 : ∀ k, k < g.cap → g.slot k ≠ p) (hs2 : cfg.premap = false → g.slot g.cap ≠ p)
    (hinv : Inv cfg plat g p h live) (hmem : ptr ∈ live)
    (ih : ∀ q ∈ freed, (∃ k, k < g.cap ∧ q = g.slot k + hdrSize plat) ∧
      h.item (itemOf plat q) ≠ p) :
    ∀ q ∈ ptr :: freed, (∃ k, k < g.cap ∧ q = g.slot k + hdrSize plat) ∧
      (pushItem plat p (itemOf plat ptr) h).item (itemOf plat q) ≠ p := by
  intro q hq
  have hhead := (inv_free_list hv hp hs1 hs2 hinv).1
  have hgeo : ∃ k, k < g.cap ∧ q = g.slot k + hdrSize plat := by
    rcases List.mem_cons.mp hq with hqp | hqf
    · rw [hqp]; exact inv_live_slot hinv hmem
    · exact (ih q hqf).1
  refine ⟨hgeo, ?_⟩
  simp only [pushItem]
  by_cases hx : itemOf plat q = itemOf plat ptr
  · rw [hx, Function.update_same]
    exact hhead
  · rw [Function.update_noteq hx]
    rcases List.mem_cons.mp hq with hqp | hqf
    · exact absurd (by rw [hqp]) hx
    · exact (ih q hqf).2

/-- In a pool whose descriptor is at the address of none of its slots, every block that
was released and not handed out again is the block of a slot of the pool, and the link
word of that slot is not the descriptor of the pool. -/
theorem released_links {cfg : Config} {plat : Platform} {g : Layout} {p : Nat}
    {h0 h : Heap} {live freed : List Nat} (hc : Created cfg plat p h0 g)
    (hv : g.Valid plat) (hft : cfg.freeptr = true)
    (hs1 : ∀ k, k < g.cap → g.slot k ≠ p) (hs2 : cfg.premap = false → g.slot g.cap ≠ p)
    (hr : Released cfg plat g p h0 h live freed) :
    ∀ q ∈ freed, (∃ k, k < g.cap ∧ q = g.slot k + hdrSize plat) ∧
      h.item (itemOf plat q) ≠ p := by
  have hp : p ≠ 0 := hc.handle_ne_zero
  induction hr with
  | init => exact fun q hq => absurd hq (List.not_mem_nil q)
  | @alloc h h1 live freed ptr hprev heq hptr ih =>
    intro q hq
    have hinv := inv_reachable hc hv hprev.reachable
    obtain ⟨hqf, hqne⟩ : q ∈ freed ∧ q ≠ ptr := by simpa using hq
    obtain ⟨⟨k, hk, hqk⟩, hlink⟩ := ih q hqf
    refine ⟨⟨k, hk, hqk⟩, ?_⟩
    obtain ⟨k1, hk1, hhead, hptrk, _⟩ := alloc_returns_head hv hp hinv heq hptr
    have hcz : (h.pool p).count ≠ 0 := by
      intro hcz
      rw [MemPoolAlloc_of_empty cfg plat hp hcz] at heq
      simp only [Option.some.injEq, Prod.mk.injEq] at heq
      exact hptr heq.1.symm
    have hb1 := (slot_bounds hv (Nat.le_of_lt hk1)).1
    rw [MemPoolAlloc_of_head cfg plat hp hcz (by rw [hhead]; omega)] at heq
    simp only [Option.some.injEq, Prod.mk.injEq] at heq
    have hiq : itemOf plat q = g.slot k := by
      rw [hqk]; exact itemOf_ptr (slot_ptr_bounds hv hk)
    have hne : g.slot k ≠ (h.pool p).next := by
      intro he
      apply hqne
      rw [hqk, hptrk, he, hhead]
    rw [hiq] at hlink ⊢
    rw [← heq.2]
    simp only [hft, ↓reduceIte]
    rw [Function.update_noteq hne]
    rcases lazyMap_frame cfg plat (h.pool p) h.item hne with e | e
    · rw [e]; exact hlink
    · rw [e]; exact fun e0 => hp e0.symm
  | @allocNull h h1 live freed hprev heq ih =>
    have hinv := inv_reachable hc hv hprev.reachable
    by_cases hcz : (h.pool p).count = 0
    · rw [MemPoolAlloc_of_empty cfg plat hp hcz] at heq
      simp only [Option.some.injEq, Prod.mk.injEq] at heq
      rw [← heq.2]
      exact ih
    · obtain ⟨q, h2, h3, h4, _, _, _⟩ := inv_alloc hv hp hinv hcz
      rw [h3] at heq
      simp only [Option.some.injEq, Prod.mk.injEq] at heq
      exact absurd heq.1 h4
  | @free h h1 live freed ptr hprev hmem heq ih =>
    have hinv := inv_reachable hc hv hprev.reachable
    obtain ⟨h2, _, _, _, _, _, _⟩ := inv_free hv hp hinv hmem
    rw [h2] at heq
    simp only [Option.some.injEq] at heq
    rw [← heq]
    exact push_links hv hp hs1 hs2 hinv hmem ih
  | @freePtr h h1 live freed ptr hprev hmem heq ih =>
    have hinv := inv_reachable hc hv hprev.reachable
    obtain ⟨_, h3, _, _, _, _, _⟩ := inv_free hv hp hinv hmem
    rw [(h3 hft).1] at heq
    simp only [Option.some.injEq] at heq
    rw [← heq]
    exact push_links hv hp hs1 hs2 hinv hmem ih
  | @other h h1 live freed hprev hpool hitem ih =>
    intro q hq
    obtain ⟨⟨k, hk, hqk⟩, hlink⟩ := ih q hq
    refine ⟨⟨k, hk, hqk⟩, ?_⟩
    have hiq : itemOf plat q = g.slot k := by
      rw [hqk]; exact itemOf_ptr (slot_ptr_bounds hv hk)
    rw [hiq] at hlink ⊢
    rw [hitem k (Or.inl hk)]
    exact hlink

/-- The free list of a pool whose descriptor is at the address of none of its slots
(in a lazy build the slot after the last one included): in every reachable state the
head of the pool leads, through items that are not `NULL`, to an empty link, and the
link word of none of these items is the address of the pool. -/
theorem free_links_not_pool {cfg : Config} {plat : Platform} {g : Layout} {p : Nat}
    {h0 h : Heap} {live : List Nat} (hc : Created cfg plat p h0 g) (hv : g.Valid plat)
    (hs1 : ∀ k, k < g.cap → g.slot k ≠ p) (hs2 : cfg.premap = false → g.slot g.cap ≠ p)
    (hr : Reachable cfg plat g p h0 h live) :
    ∃ L, Chain h.item (h.pool p).next L 0 ∧ 0 ∉ L ∧ ∀ a ∈ L, h.item a ≠ p :=
  (inv_free_list hv hc.handle_ne_zero hs1 hs2 (inv_reachable hc hv hr)).2

/-- Instance of `free_links_not_pool`: the lazy pool of `lazyHeap0`, whose descriptor is
away from the buffer, after its only block was allocated. -/
theorem free_links_not_pool_witness :
    ∃ L, Chain lazyHeap1.item (lazyHeap1.pool 8192).next L 0 ∧ 0 ∉ L ∧
      ∀ a ∈ L, lazyHeap1.item a ≠ 8192 :=
  @free_links_not_pool lazyConfig ilp32 { base := 4096, stride := 16, cap := 1 } 8192
    lazyHeap0 lazyHeap1 [4104]
    (Created.static 4 1 4096 16 8192 markedHeap rfl (by decide))
    ⟨by decide, by decide, by decide, by decide⟩
    (fun k hk => by
      have hk1 : k < 1 := hk
      show 4096 + k * 16 ≠ 8192
      omega)
    (fun _ => by decide)
    (Reachable.alloc Reachable.init (rfl : MemPoolAlloc lazyConfig ilp32 8192 lazyHeap0
      = some (4104, lazyHeap1)) (by decide))

/-- Releasing a block twice, in a build with `MEMPOOL_FREEPTR` and a pool whose
descriptor is at the address of none of its slots (in a lazy build the slot after the
last one included): for every block that was released and not handed out again, the
link word of its slot is not the address of the pool, and `MemPoolFree` of it stops on
an assertion, before the locked section. -/
theorem second_free_asserts {cfg : Config} {plat : Platform} {g : Layout} {p : Nat}
    {h0 h : Heap} {live freed : List Nat} {ptr : Nat} (hc : Created cfg plat p h0 g)
    (hv : g.Valid plat) (hft : cfg.freeptr = true)
    (hs1 : ∀ k, k < g.cap → g.slot k ≠ p) (hs2 : cfg.premap = false → g.slot g.cap ≠ p)
    (hr : Released cfg plat g p h0 h live freed) (hf : ptr ∈ freed) :
    h.item (itemOf plat ptr) ≠ p ∧ MemPoolFree cfg plat p ptr h = none := by
  obtain ⟨⟨k, hk, hqk⟩, hlink⟩ := released_links hc hv hft hs1 hs2 hr ptr hf
  refine ⟨hlink, ?_⟩
  have hb := (slot_bounds hv (Nat.le_of_lt hk)).1
  have hi : itemOf plat ptr = g.slot k := by
    rw [hqk]; exact itemOf_ptr (slot_ptr_bounds hv hk)
  have hp0 : ptr ≠ 0 := by omega
  have hi0 : itemOf plat ptr ≠ 0 := by omega
  simp [MemPoolFree, hc.handle_ne_zero, hp0, hi0, hft, hlink]

/-- Instance of `second_free_asserts`: the block of the lazy pool of `lazyHeap0`, whose
descriptor is away from the buffer, allocated and released. -/
theorem second_free_asserts_witness :
    lazyHeap2.item (itemOf ilp32 4104) ≠ 8192 ∧
      MemPoolFree lazyConfig ilp32 8192 4104 lazyHeap2 = none :=
  @second_free_asserts lazyConfig ilp32 { base := 4096, stride := 16, cap := 1 } 8192
    lazyHeap0 lazyHeap2 ([4104].erase 4104) [4104] 4104
    (Created.static 4 1 4096 16 8192 markedHeap rfl (by decide))
    ⟨by decide, by decide, by decide, by decide⟩ rfl
    (fun k hk => by
      have hk1 : k < 1 := hk
      show 4096 + k * 16 ≠ 8192
      omega)
    (fun _ => by decide)
    (Released.free
      (Released.alloc Released.init (rfl : MemPoolAlloc lazyConfig ilp32 8192 lazyHeap0
        = some (4104, lazyHeap1)) (by decide))
      (List.mem_cons_self 4104 []) (rfl : MemPoolFree lazyConfig ilp32 8192 4104 lazyHeap1
        = some lazyHeap2))
    (List.mem_cons_self 4104 [])

/-- C21, the code at a failing input (32-bit port, lazy build, `MEMPOOL_FREEPTR` on): a
static pool of one item in the buffer `[0x1000, 0x1010)` whose descriptor is the
storage that follows the buffer, at `0x1010`. The allocation of the block installs the
slot after the last one, `0x1010`, as head of the free list; the release of the block
stores that head, which is the address of the pool, in the link word of the freed slot;
the second release of the same block passes the owner assertion and runs the locked
section: the count becomes 2 in a pool of one item and the slot links to itself. -/
theorem double_free_missed :
    (MemPoolCreateStatic lazyConfig ilp32 4 1 4096 16 4112 emptyHeap).map Prod.fst
      = some 4112 ∧
    (adjHeap0.pool 4112).count = 1 ∧ (adjHeap0.pool 4112).next = 4096 ∧
    MemPoolAlloc lazyConfig ilp32 4112 adjHeap0 = some (4104, adjHeap1) ∧
    (adjHeap1.pool 4112).next = 4112 ∧ (adjHeap1.pool 4112).count = 0 ∧
    MemPoolFree lazyConfig ilp32 4112 4104 adjHeap1 = some adjHeap2 ∧
    itemOf ilp32 4104 = 4096 ∧ (adjHeap2.pool 4112).next = 4096 ∧
    adjHeap2.item 4096 = 4112 ∧ (adjHeap2.pool 4112).count = 1 ∧
    MemPoolFree lazyConfig ilp32 4112 4104 adjHeap2 = some adjHeap3 ∧
    (adjHeap3.pool 4112).count = 2 ∧ (adjHeap3.pool 4112).next = 4096 ∧
    adjHeap3.item 4096 = 4096 := by
  refine ⟨rfl, rfl, rfl, rfl, rfl, rfl, rfl, by decide, rfl, rfl, rfl, rfl, rfl, rfl, rfl⟩

/-! ## The code at the edge of the `size_t` range -/

/-- C1, the code at a failing input (32-bit port, lazy build):
`MemPoolCreateStatic(0xFFFFFFF8, 2, (void *)0x1000, 16, &pool)`. The stride
`8 + 0xFFFFFFF8` wraps to zero, the fit test `16 < 2 * 0` lets the call through and the
pool has two items. The first `MemPoolAlloc` maps the next slot at distance zero, which
is the item itself, clears its link and takes that `NULL` as the new head. The pool now
has count 1 and `MemPoolAvailable` reports 1, and the next `MemPoolAlloc` stops on the
assertion that the head is not `NULL`. -/
theorem alloc_asserts_with_items :
    itemStride ilp32 4294967288 = 0 ∧
    (MemPoolCreateStatic lazyConfig ilp32 4294967288 2 4096 16 8192 emptyHeap).map Prod.fst
      = some 8192 ∧
    (lazyWrapHeap0.pool 8192).count = 2 ∧ (lazyWrapHeap0.pool 8192).next = 4096 ∧
    MemPoolAlloc lazyConfig ilp32 8192 lazyWrapHeap0 = some (4104, lazyWrapHeap1) ∧
    (lazyWrapHeap1.pool 8192).count = 1 ∧ MemPoolAvailable ilp32 8192 lazyWrapHeap1 = 1 ∧
    (lazyWrapHeap1.pool 8192).next = 0 ∧
    MemPoolAlloc lazyConfig ilp32 8192 lazyWrapHeap1 = none := by
  refine ⟨by decide, rfl, rfl, rfl, rfl, rfl, rfl, rfl, rfl⟩

/-- C2, the code at a failing input (64-bit port with a 32-bit `int`, any build):
`MemPoolCreate(1, 2^31)` when the allocator grants the 34359738400 bytes asked for,
then `P = MemPoolAlloc(pool)` and `MemPoolFree(pool, P)`. After the allocation the count
is `2^31 - 1` and `MemPoolAvailable` returns 2147483647; the release returns normally
and makes the count `2^31`, but `MemPoolAvailable` then returns `2^64 - 2^31`, not
2147483648. -/
theorem free_available_wraps (cfg : Config) :
    (MemPoolCreate cfg lp64 (fun n => if n = 34359738400 then 4096 else 0) 1 (2 ^ 31)
      emptyHeap).1 = 4096 ∧
    ∃ ptr h1 h2,
      MemPoolAlloc cfg lp64 4096
        (MemPoolCreate cfg lp64 (fun n => if n = 34359738400 then 4096 else 0) 1 (2 ^ 31)
          emptyHeap).2 = some (ptr, h1) ∧
      ptr ≠ 0 ∧ (h1.pool 4096).count = 2 ^ 31 - 1 ∧
      MemPoolAvailable lp64 4096 h1 = 2147483647 ∧
      MemPoolFree cfg lp64 4096 ptr h1 = some h2 ∧ (h2.pool 4096).count = 2 ^ 31 ∧
      MemPoolAvailable lp64 4096 h2 = 2 ^ 64 - 2 ^ 31 ∧
      MemPoolAvailable lp64 4096 h2 ≠ MemPoolAvailable lp64 4096 h1 + 1 := by
  have hreq : (MEMPOOL_ALIGN lp64 lp64.sizeofMemPool + 2 ^ 31 * itemStride lp64 1) % lp64.size
      = 34359738400 := by decide
  have hg := @MemPoolCreate_granted cfg lp64
    (fun n => if n = 34359738400 then 4096 else 0) 1 (2 ^ 31) emptyHeap
    (by decide) (by decide) (by rw [hreq]; decide)
  rw [hreq] at hg
  simp only [↓reduceIte] at hg
  have hcr : Created cfg lp64 4096
      (MemPoolCreate cfg lp64 (fun n => if n = 34359738400 then 4096 else 0) 1 (2 ^ 31)
        emptyHeap).2
      { base := (4096 + MEMPOOL_ALIGN lp64 lp64.sizeofMemPool) % lp64.size
        stride := itemStride lp64 1
        cap := 2 ^ 31 } :=
    Created.dynamic (fun n => if n = 34359738400 then 4096 else 0) 1 (2 ^ 31) emptyHeap
      (Prod.ext hg.1 rfl) (by decide)
  have hv : Layout.Valid lp64
      { base := (4096 + MEMPOOL_ALIGN lp64 lp64.sizeofMemPool) % lp64.size
        stride := itemStride lp64 1
        cap := 2 ^ 31 } := ⟨by decide, by decide, by decide, by decide⟩
  obtain ⟨ptr, h1, ha, hne, _, hcnt1, hinv1⟩ :=
    inv_alloc hv (by decide) (inv_created hcr hv) (by rw [hg.2]; decide)
  obtain ⟨hf, _, hcnt2, _⟩ := inv_free hv (by decide) hinv1 (List.mem_cons_self ptr [])
  rw [hg.2] at hcnt1
  have hc1 : (h1.pool 4096).count = 2 ^ 31 - 1 := by omega
  rw [hc1] at hcnt2
  have hav1 : MemPoolAvailable lp64 4096 h1 = 2147483647 := by
    unfold MemPoolAvailable
    rw [if_neg (by decide), hc1]
    decide
  have hav2 : MemPoolAvailable lp64 4096 (pushItem lp64 4096 (itemOf lp64 ptr) h1)
      = 2 ^ 64 - 2 ^ 31 := by
    unfold MemPoolAvailable
    rw [if_neg (by decide), hcnt2]
    decide
  refine ⟨hg.1, ptr, h1, _, ha, hne, hc1, hav1, hf, hcnt2, hav2, ?_⟩
  rw [hav1, hav2]
  decide

/-- C3, the code at a failing input (32-bit port, default build):
`MemPoolCreateStatic(0xFFFFFFF8, 2, (void *)0x1000, 16, &pool)`. The stride
`8 + 0xFFFFFFF8` wraps to zero, the fit test `16 < 2 * 0` lets the call through and the
pool has two items, both at `0x1000`. Two consecutive calls of `MemPoolAlloc` on the
fresh pool each return the non-NULL pointer `0x1008`. -/
theorem alloc_same_block_twice :
    itemStride ilp32 4294967288 = 0 ∧
    (MemPoolCreateStatic defaultConfig ilp32 4294967288 2 4096 16 8192 emptyHeap).map
      Prod.fst = some 8192 ∧
    (wrapHeap0.pool 8192).count = 2 ∧
    MemPoolAlloc defaultConfig ilp32 8192 wrapHeap0 = some (4104, wrapHeap1) ∧
    (wrapHeap1.pool 8192).count = 1 ∧
    MemPoolAlloc defaultConfig ilp32 8192 wrapHeap1 = some (4104, wrapHeap2) ∧
    (wrapHeap2.pool 8192).count = 0 := by
  refine ⟨by decide, rfl, rfl, rfl, rfl, rfl, rfl⟩

/-- C6, the code at a failing input (32-bit port, lazy build):
`MemPoolCreateStatic(4, 0, (void *)0x1001, 3, &pool)`. Seven bytes are skipped to align
the buffer, more than the three bytes it has, so `BufferSize` minus the padding is
negative; in `size_t` it is `0xFFFFFFFC`, the call succeeds and the pool has
`0xFFFFFFFC / 16 = 268435455` items, which is also what `MemPoolAvailable` reports. -/
theorem static_count_wraps :
    alignPadding ilp32 4097 = 7 ∧ itemStride ilp32 4 = 16 ∧
    ((3 : Nat) : Int) - ((alignPadding ilp32 4097 : Nat) : Int) < 0 ∧
    usableSize ilp32 4097 3 = 4294967292 ∧
    (MemPoolCreateStatic lazyConfig ilp32 4 0 4097 3 8192 emptyHeap).map Prod.fst
      = some 8192 ∧
    (padHeap0.pool 8192).count = 268435455 ∧ (padHeap0.pool 8192).next = 4104 ∧
    MemPoolAvailable ilp32 8192 padHeap0 = 268435455 := by
  refine ⟨by decide, by decide, by decide, by decide, rfl, rfl, rfl, rfl⟩

/-- C15, the code at a failing input (32-bit port, default build, which premaps):
`MemPoolCreateStatic(0xFFFFFFF8, 2, (void *)0x1000, 16, &pool)`. The stride
`8 + 0xFFFFFFF8` wraps to zero and the call is accepted with two items. The premap loop
links the item at `0x1000` to itself and makes it the head: no list of links from the
head of the fresh pool ends in an empty link. -/
theorem free_list_self_loop :
    itemStride ilp32 4294967288 = 0 ∧
    (MemPoolCreateStatic defaultConfig ilp32 4294967288 2 4096 16 8192 emptyHeap).map
      Prod.fst = some 8192 ∧
    (wrapHeap0.pool 8192).count = 2 ∧ (wrapHeap0.pool 8192).next = 4096 ∧
    wrapHeap0.item 4096 = 4096 ∧
    ∀ fl : List Nat, ¬ Chain wrapHeap0.item (wrapHeap0.pool 8192).next fl 0 := by
  refine ⟨by decide, rfl, rfl, rfl, rfl, ?_⟩
  have hhead : (wrapHeap0.pool 8192).next = 4096 := rfl
  have hlink : wrapHeap0.item 4096 = 4096 := rfl
  rw [hhead]
  intro fl
  induction fl with
  | nil => exact fun hc => absurd (show 4096 = 0 from hc) (by decide)
  | cons a l ih =>
    intro hc
    obtain ⟨h1, h2⟩ := hc
    rw [← h1, hlink] at h2
    exact ih h2

/-- C20, the code at a failing input (32-bit port):
`MemPoolCreateStatic(0xFFFFFFF8, 2, (void *)0x1000, 16, &pool)` in both builds, then two
allocations. Both builds accept the call with two items at stride zero. The premap pool
returns a block on each allocation and reports 1 and then 0 items available; the lazy
pool returns a block on the first allocation and stops on the assertion of
`MemPoolAlloc` on the second. -/
theorem lazy_premap_differ :
    (MemPoolCreateStatic defaultConfig ilp32 4294967288 2 4096 16 8192 emptyHeap).map
      Prod.fst = some 8192 ∧
    (MemPoolCreateStatic lazyConfig ilp32 4294967288 2 4096 16 8192 emptyHeap).map
      Prod.fst = some 8192 ∧
    (wrapHeap0.pool 8192).count = 2 ∧ (lazyWrapHeap0.pool 8192).count = 2 ∧
    runOps defaultConfig ilp32 8192 [PoolOp.alloc, PoolOp.alloc] wrapHeap0 []
      = Except.ok [(false, 1), (false, 0)] ∧
    runOps lazyConfig ilp32 8192 [PoolOp.alloc, PoolOp.alloc] lazyWrapHeap0 []
      = Except.error RunStop.assertion := by
  refine ⟨rfl, rfl, rfl, rfl, rfl, rfl⟩

end Mempool
